import Mathlib

/-!
Verification of the geospatial aggregation and administrative-boundary
resolution core of the journey-map photo application.

Embedding conventions:
* JS strings are `List Char` (`Str`); nullable strings are `Option Str`,
  with JS truthiness (`null`/`""` falsy) modelled by `truthy`.
* JS numbers that carry coordinates are embedded as `ℚ`; the two uses of
  transcendental functions (`Math.cos` in the degree converter, `Math.log`
  in the intensity law) are embedded as an explicit cosine parameter and as
  `Real.log` respectively.
* JS `Map` objects are association lists in key insertion order.
* `Array.prototype.sort` with comparator `(a, b) => b.count - a.count` is
  embedded as a stable merge sort by descending count.
-/

namespace JourneyMap

/-- JS strings are embedded as lists of characters. -/
abbrev Str := List Char

/-- Shorthand turning a Lean string literal into the embedded string type. -/
def str (s : String) : Str := s.data

/-- JS truthiness of a nullable string: `null`/`undefined` and `""` are falsy. -/
def truthy : Option Str → Bool
  | none => false
  | some s => !s.isEmpty

/-- The JS expression `a || b` on nullable strings. -/
def jsOr (a b : Option Str) : Option Str := if truthy a then a else b

/-- ECMAScript WhiteSpace and LineTerminator characters: exactly the set
matched by the regex class `\s` and stripped by `String.prototype.trim`. -/
def isJsSpace (c : Char) : Bool :=
  c.toNat = 0x09 || c.toNat = 0x0A || c.toNat = 0x0B || c.toNat = 0x0C ||
  c.toNat = 0x0D || c.toNat = 0x20 || c.toNat = 0xA0 || c.toNat = 0x1680 ||
  (0x2000 ≤ c.toNat && c.toNat ≤ 0x200A) || c.toNat = 0x2028 || c.toNat = 0x2029 ||
  c.toNat = 0x202F || c.toNat = 0x205F || c.toNat = 0x3000 || c.toNat = 0xFEFF

/-- JS `s.replace(/[\s　]/g, '')`; the ideographic space U+3000 already lies
inside `\s`, so the class is exactly `isJsSpace`. -/
def stripJsSpace (s : Str) : Str := s.filter (fun c => !isJsSpace c)

/-- JS `String.prototype.trim`. -/
def jsTrim (s : Str) : Str :=
  ((s.dropWhile isJsSpace).reverse.dropWhile isJsSpace).reverse

/-- One character of `toHalfWidthDigits`: the full-width digits ０-９
(U+FF10 - U+FF19) are shifted down by 0xFEE0 onto the ASCII digits, every
other character is unchanged. -/
def foldWidthChar (c : Char) : Char :=
  if 0xFF10 ≤ c.toNat ∧ c.toNat ≤ 0xFF19 then Char.ofNat (c.toNat - 0xFEE0) else c

/-- reverseGeocode.ts line 52: `s.replace(/[０-９]/g, ch =>
String.fromCharCode(ch.charCodeAt(0) - 0xFEE0))`. -/
def toHalfWidthDigits (s : Str) : Str := s.map foldWidthChar

/-- The kanji digit table of reverseGeocode.ts line 56 (and its duplicate in
japanGeoData.ts line 325). -/
def kanjiDigit : Char → Option ℕ
  | '一' => some 1
  | '二' => some 2
  | '三' => some 3
  | '四' => some 4
  | '五' => some 5
  | '六' => some 6
  | '七' => some 7
  | '八' => some 8
  | '九' => some 9
  | _ => none

/-- Property names inherited from `Object.prototype`: a read of one of these
keys on the digit-table object literal yields the inherited (non-null,
non-numeric) prototype member instead of `undefined`. -/
def protoKeys : List Str :=
  [str "constructor", str "hasOwnProperty", str "isPrototypeOf",
   str "propertyIsEnumerable", str "toLocaleString", str "toString",
   str "valueOf", str "__proto__", str "__defineGetter__",
   str "__defineSetter__", str "__lookupGetter__", str "__lookupSetter__"]

/-- Result of the JS property read `map[s]` on the digit-table object
literal: an own digit entry, a value inherited from `Object.prototype`
(a function or object — non-null, and coercing to NaN in arithmetic), or
`undefined`. -/
inductive MapLookup where
  | digit (n : ℕ)
  | inherited
  | undef
deriving DecidableEq

/-- JS object lookup `map[s]` against the digit table: the own keys are the
nine single kanji digits; every other key falls through to the prototype
chain (no `Object.prototype` property name is a single character). -/
def kanjiLookup : Str → MapLookup
  | [c] =>
    match kanjiDigit c with
    | some n => MapLookup.digit n
    | none => MapLookup.undef
  | s => if s ∈ protoKeys then MapLookup.inherited else MapLookup.undef

/-- The JS `number | null` result of kanjiToNumber: `null`, an integer
value, or `NaN` (produced by `tens * 10 + ones` when a consulted segment
named an inherited prototype property). -/
inductive KanjiNum where
  | null
  | num (n : ℕ)
  | nan
deriving DecidableEq

/-- JS `s.split(sep)` for a one-character separator. -/
def splitOnChar (sep : Char) : Str → List Str
  | [] => [[]]
  | c :: rest =>
    if c = sep then [] :: splitOnChar sep rest
    else
      match splitOnChar sep rest with
      | [] => [[c]]
      | p :: ps => (c :: p) :: ps

/-- reverseGeocode.ts lines 55-73 (duplicated in japanGeoData.ts lines
326-341): parse a kanji numeral string.  Only the segments before the first
and between the first and second 十 are consulted; the `== null` guards let
an inherited prototype value through, in which case `tens * 10 + ones`
evaluates to NaN. -/
def kanjiToNumber (kanji : Str) : KanjiNum :=
  if kanji.isEmpty then KanjiNum.null
  else if kanji = str "十" then KanjiNum.num 10
  else if !(kanji.contains '十') then
    match kanji with
    | [c] =>
      match kanjiDigit c with
      | some n => KanjiNum.num n
      | none => KanjiNum.null
    | _ => KanjiNum.null
  else
    let parts := splitOnChar '十' kanji
    let tensPart := parts.getD 0 []
    let onesPart := parts.getD 1 []
    match (if tensPart.isEmpty then MapLookup.digit 1 else kanjiLookup tensPart) with
    | MapLookup.undef => KanjiNum.null
    | tens =>
      match (if onesPart.isEmpty then MapLookup.digit 0 else kanjiLookup onesPart) with
      | MapLookup.undef => KanjiNum.null
      | ones =>
        match tens, ones with
        | MapLookup.digit t, MapLookup.digit o => KanjiNum.num (t * 10 + o)
        | _, _ => KanjiNum.nan

/-- The restricted grammar named by the specification: bare digits 一-九, the
literal 十, and compounds of the form [一-九]?十[一-九]?. -/
def inKanjiGrammar (s : Str) : Bool :=
  match s with
  | [c] => c == '十' || (kanjiDigit c).isSome
  | [a, b] => ((kanjiDigit a).isSome && b == '十') || (a == '十' && (kanjiDigit b).isSome)
  | [a, b, c] => (kanjiDigit a).isSome && b == '十' && (kanjiDigit c).isSome
  | _ => false

/-- The decimal digit character of value n. -/
def digitChar (n : ℕ) : Char := Char.ofNat (48 + n)

/-- Fuel-driven decimal printer underlying the JS template `${n}`. -/
def natToDecimalAux : ℕ → ℕ → Str → Str
  | 0, _, acc => acc
  | fuel + 1, n, acc =>
    if n < 10 then digitChar n :: acc
    else natToDecimalAux fuel (n / 10) (digitChar (n % 10) :: acc)

/-- JS decimal rendering `${n}` of a nonnegative number. -/
def natToDecimal (n : ℕ) : Str := natToDecimalAux (n + 1) n []

/-- The regex character class [一二三四五六七八九十] of the 丁目 rewrite. -/
def isKanjiNumChar (c : Char) : Bool :=
  c == '一' || c == '二' || c == '三' || c == '四' || c == '五' ||
  c == '六' || c == '七' || c == '八' || c == '九' || c == '十'

/-- Replacement text for one regex match `([一二三四五六七八九十]+)丁目`:
the callback `(m, k) => n != null ? `${n}丁目` : m` keeps the 丁目 suffix
either way, so only the numeral-run part varies.  NaN is non-null, so it
would render as "NaN"; this branch is unreachable from the regex, whose
captures are pure kanji-numeral runs. -/
def chomePiece (run : Str) : Str :=
  match kanjiToNumber run with
  | KanjiNum.num n => natToDecimal n
  | KanjiNum.nan => str "NaN"
  | KanjiNum.null => run

/-- JS `x.replace(/([一二三四五六七八九十]+)丁目/g, ...)`.  Because the class
excludes 丁, a match is exactly a maximal run of class characters followed
immediately by 丁目 (greedy backtracking inside the run always fails), and
scanning resumes after the consumed 丁目. -/
def convertChome : Str → Str
  | [] => []
  | c :: rest =>
    if hk : isKanjiNumChar c then
      match hm : (c :: rest).dropWhile isKanjiNumChar with
      | '丁' :: '目' :: tail =>
        chomePiece ((c :: rest).takeWhile isKanjiNumChar) ++ '丁' :: '目' :: convertChome tail
      | other => (c :: rest).takeWhile isKanjiNumChar ++ convertChome other
    else c :: convertChome rest
termination_by l => l.length
decreasing_by
  · have h2 : ∀ l : Str, (l.dropWhile isKanjiNumChar).length ≤ l.length := by
      intro l
      induction l with
      | nil => simp
      | cons a l ih => by_cases ha : isKanjiNumChar a <;> simp [List.dropWhile_cons, ha] <;> omega
    rw [List.dropWhile_cons, if_pos hk] at hm
    have h3 := congrArg List.length hm
    have h4 := h2 rest
    simp at h3
    simp only [List.length_cons]
    omega
  · have h2 : ∀ l : Str, (l.dropWhile isKanjiNumChar).length ≤ l.length := by
      intro l
      induction l with
      | nil => simp
      | cons a l ih => by_cases ha : isKanjiNumChar a <;> simp [List.dropWhile_cons, ha] <;> omega
    rw [List.dropWhile_cons, if_pos hk] at hm
    have h3 := congrArg List.length hm
    have h4 := h2 rest
    simp only [List.length_cons]
    omega
  · simp only [List.length_cons]
    omega

/-- Bool test whether a string starts with 目. -/
def headIsMe : Str → Bool
  | [] => false
  | c :: _ => c == '目'

/-- JS `const idx = x.indexOf('丁目'); if (idx >= 0) x = x.slice(0, idx + 2)`:
keep everything up to and including the first occurrence of 丁目. -/
def truncChome : Str → Str
  | [] => []
  | c :: rest =>
    if c = '丁' ∧ headIsMe rest then ['丁', '目']
    else c :: truncChome rest

/-- reverseGeocode.ts lines 75-86: fold digits, strip whitespace, rewrite
kanji numerals before 丁目, then cut after the first 丁目. -/
def normalizeChome (s : Str) : Str :=
  truncChome (convertChome (stripJsSpace (toHalfWidthDigits s)))

/-- japanGeoData.ts lines 313-349: strip whitespace, fold digits, cut after
the first 丁目, then rewrite kanji numerals, then trim. -/
def normalizeTownName (name : Str) : Str :=
  jsTrim (convertChome (truncChome (toHalfWidthDigits (stripJsSpace name))))

/-- reverseGeocode.ts lines 88-92. -/
def extractChomeFromAddress : Option Str → Option Str
  | none => none
  | some s => if s.isEmpty then none else some (normalizeChome s)

/-- JS `name.replace(/c$/, '')` for a single character c: drop the last
character when it is c. -/
def stripCharSuffix (c : Char) (s : Str) : Str :=
  if s.getLast? = some c then s.dropLast else s

/-- japanGeoData.ts lines 527-534: chained replaces of a trailing 都, 道,
府, 県 (in that order), then trim. -/
def normalizePrefectureName (name : Str) : Str :=
  jsTrim (stripCharSuffix '県' (stripCharSuffix '府' (stripCharSuffix '道' (stripCharSuffix '都' name))))

/-- japanGeoData.ts lines 539-547: chained replaces of a trailing 市, 区,
町, 村, 郡 (in that order), then trim. -/
def normalizeCityName (name : Str) : Str :=
  jsTrim (stripCharSuffix '郡' (stripCharSuffix '村' (stripCharSuffix '町' (stripCharSuffix '区' (stripCharSuffix '市' name)))))

/-- Bool test: pat is an initial segment of s. -/
def leadsWith : Str → Str → Bool
  | _, [] => true
  | [], _ :: _ => false
  | c :: s, d :: p => c == d && leadsWith s p

/-- JS `a.includes(b)`: b occurs contiguously somewhere inside a. -/
def jsIncludes (s pat : Str) : Bool :=
  match s with
  | [] => pat.isEmpty
  | _ :: rest => leadsWith s pat || jsIncludes rest pat

/-- japanGeoData.ts line 214: `(a, b) => a === b || a.includes(b) || b.includes(a)`. -/
def isNameMatch (a b : Str) : Bool := a == b || jsIncludes a b || jsIncludes b a

/-- The {count, intensity} payload carried through boundary matching.  The
intensity is an opaque number to the matcher; it is only passed through. -/
structure CountIntensity where
  count : ℕ
  intensity : ℚ
deriving DecidableEq

/-- GeoJSON geometry, abstracted to its type tag plus an identity tag:
createCityFeatures only tests the type and passes the geometry through. -/
inductive Geometry where
  | polygon (tag : ℕ)
  | multiPolygon (tag : ℕ)
  | otherGeometry (tag : ℕ)
deriving DecidableEq

/-- The check `geometry.type === 'Polygon' || geometry.type === 'MultiPolygon'`. -/
def Geometry.isPolygonal : Geometry → Bool
  | .polygon _ => true
  | .multiPolygon _ => true
  | .otherGeometry _ => false

/-- The property bag consulted by getCityName (japan-topography format). -/
structure CityProps where
  N03_004 : Option Str
  name : Option Str
  N03_003 : Option Str
  NAME : Option Str
deriving DecidableEq

/-- A boundary-source feature as seen by createCityFeatures. -/
structure CityFeature where
  props : Option CityProps
  geometry : Geometry
deriving DecidableEq

/-- japanGeoData.ts lines 385-390:
`props.N03_004 || props.name || props.N03_003 || props.NAME || null`. -/
def getCityName (feature : CityFeature) : Option Str :=
  match feature.props with
  | none => none
  | some props =>
    jsOr (jsOr (jsOr (jsOr props.N03_004 props.name) props.N03_003) props.NAME) none

/-- An output feature of createCityFeatures: properties plus the borrowed
geometry. -/
structure MatchedCityFeature where
  name : Str
  matchedName : Str
  count : ℕ
  intensity : ℚ
  geometry : Geometry
deriving DecidableEq

/-- Inner loop of createCityFeatures (japanGeoData.ts lines 489-515): the
first count entry that is not yet matched and whose normalized key matches
the normalized polygon name (equality or containment either way). -/
def findCityMatch (matched : List Str) (normalizedCityName : Str) :
    List (Str × CountIntensity) → Option (Str × CountIntensity)
  | [] => none
  | (countKey, data) :: rest =>
    if countKey ∈ matched then findCityMatch matched normalizedCityName rest
    else
      let normalizedCountKey := normalizeCityName countKey
      if normalizedCityName == normalizedCountKey ||
          jsIncludes normalizedCityName normalizedCountKey ||
          jsIncludes normalizedCountKey normalizedCityName then
        some (countKey, data)
      else findCityMatch matched normalizedCityName rest

/-- Outer loop of createCityFeatures (japanGeoData.ts lines 483-516). -/
def createCityFeaturesAux (cityCounts : List (Str × CountIntensity)) :
    List CityFeature → List Str → List MatchedCityFeature
  | [], _ => []
  | feature :: rest, matched =>
    match getCityName feature with
    | none => createCityFeaturesAux cityCounts rest matched
    | some cityName =>
      match findCityMatch matched (normalizeCityName cityName) cityCounts with
      | none => createCityFeaturesAux cityCounts rest matched
      | some (countKey, data) =>
        if feature.geometry.isPolygonal then
          { name := cityName, matchedName := countKey, count := data.count,
            intensity := data.intensity, geometry := feature.geometry } ::
            createCityFeaturesAux cityCounts rest (matched ++ [countKey])
        else createCityFeaturesAux cityCounts rest matched

/-- japanGeoData.ts lines 476-522. -/
def createCityFeatures (geoFeatures : List CityFeature)
    (cityCounts : List (Str × CountIntensity)) : List MatchedCityFeature :=
  createCityFeaturesAux cityCounts geoFeatures []

/-- The resolver's output record. -/
structure GeocodingResult where
  prefecture : Option Str
  city : Option Str
  town : Option Str
deriving DecidableEq

/-- reverseGeocode.ts lines 151-180: the ward/city classification over the
names collected from the provider response, before the town==city post-fix.
`endsWith('区')` on a JS string is the test that its last character is 区. -/
def resolveAdminCore (regionName districtName placeName localityName
    neighborhoodName addressName : Option Str) : GeocodingResult :=
  let prefecture := regionName
  let chomeFromAddress := extractChomeFromAddress addressName
  if truthy localityName ∧ (localityName.getD []).getLast? = some '区' then
    { prefecture, city := localityName, town := jsOr neighborhoodName chomeFromAddress }
  else if truthy districtName ∧ (districtName.getD []).getLast? = some '区' then
    { prefecture, city := districtName,
      town := jsOr (jsOr neighborhoodName chomeFromAddress) localityName }
  else if truthy placeName ∧ placeName ≠ regionName then
    { prefecture, city := placeName,
      town := jsOr (jsOr neighborhoodName chomeFromAddress) localityName }
  else if placeName = regionName ∧ truthy localityName then
    { prefecture, city := localityName, town := jsOr neighborhoodName chomeFromAddress }
  else
    { prefecture, city := jsOr (jsOr placeName districtName) localityName,
      town := jsOr neighborhoodName chomeFromAddress }

/-- reverseGeocode.ts lines 182-185:
`if (town && city && town === city) town = null`. -/
def fixTown (city town : Option Str) : Option Str :=
  if truthy town ∧ truthy city ∧ town = city then none else town

/-- The full classification stage of reverseGeocode: core rules plus the
town==city post-fix. -/
def resolveAdmin (regionName districtName placeName localityName
    neighborhoodName addressName : Option Str) : GeocodingResult :=
  let core := resolveAdminCore regionName districtName placeName localityName
    neighborhoodName addressName
  { core with town := fixTown core.city core.town }

/-- types/photo.ts PhotoLocation (with the optional administrative fields of
adminBoundaryCalculator's PhotoWithAdmin on the same record).  `Date` is
embedded as epoch milliseconds; coordinates as `ℚ`. -/
structure PhotoLocation where
  id : Str
  filename : Str
  latitude : ℚ
  longitude : ℚ
  timestamp : ℤ
  thumbnailUrl : Str
  prefecture : Option Str
  city : Option Str
  town : Option Str
deriving DecidableEq

/-- gridCalculator.ts lines 31-34. -/
def metersToDegreesLat (meters : ℚ) : ℚ := meters / 111320

/-- gridCalculator.ts lines 36-40; `Math.cos((latitude * π) / 180)` is
transcendental, so the embedding takes its value as an explicit parameter. -/
def metersToDegreesLng (meters cosLat : ℚ) : ℚ := meters / (111320 * cosLat)

/-- gridCalculator.ts lines 45-56. -/
def getGridIndex (lat lng originLat originLng cellSizeLat cellSizeLng : ℚ) : ℤ × ℤ :=
  (⌊(lat - originLat) / cellSizeLat⌋, ⌊(lng - originLng) / cellSizeLng⌋)

structure GridBounds where
  minLat : ℚ
  maxLat : ℚ
  minLng : ℚ
  maxLng : ℚ
deriving DecidableEq

/-- A grid cell.  The `intensity` field of the source record is the function
`logIntensity count maxCount` of the run (see `logIntensity`); the embedded
record carries the `count` it is computed from. -/
structure GridCell where
  id : Str
  row : ℤ
  col : ℤ
  centerLat : ℚ
  centerLng : ℚ
  bounds : GridBounds
  photos : List PhotoLocation
  count : ℕ
deriving DecidableEq

structure GridStats where
  cells : List GridCell
  maxCount : ℕ
  totalCells : ℕ
  cellSizeMeters : ℚ
deriving DecidableEq

/-- JS `Map` get-or-create-then-push keyed by the string `${row}:${col}`;
that key is injective in (row, col), so the map is keyed by the pair. -/
def insertPhoto (key : ℤ × ℤ) (photo : PhotoLocation) :
    List ((ℤ × ℤ) × List PhotoLocation) → List ((ℤ × ℤ) × List PhotoLocation)
  | [] => [(key, [photo])]
  | (k, ps) :: rest =>
    if k = key then (k, ps ++ [photo]) :: rest
    else (k, ps) :: insertPhoto key photo rest

/-- The cell id string `${row}:${col}`. -/
def rowColKey (row col : ℤ) : Str := (toString row).data ++ str ":" ++ (toString col).data

/-- `cells.sort((a, b) => b.count - a.count)`: a stable sort by descending
count.  The claims use only that the result is a permutation of the input. -/
def sortByCountDesc {α : Type} (count : α → ℕ) (l : List α) : List α :=
  l.mergeSort (fun a b => decide (count b ≤ count a))

/-- gridCalculator.ts lines 122-150: one output cell from one map entry. -/
def buildGridCell (originLat originLng cellSizeLat cellSizeLng : ℚ)
    (g : (ℤ × ℤ) × List PhotoLocation) : GridCell :=
  let row := g.1.1
  let col := g.1.2
  let cellMinLat := originLat + row * cellSizeLat
  let cellMaxLat := cellMinLat + cellSizeLat
  let cellMinLng := originLng + col * cellSizeLng
  let cellMaxLng := cellMinLng + cellSizeLng
  { id := rowColKey row col, row, col,
    centerLat := (cellMinLat + cellMaxLat) / 2,
    centerLng := (cellMinLng + cellMaxLng) / 2,
    bounds := { minLat := cellMinLat, maxLat := cellMaxLat,
                minLng := cellMinLng, maxLng := cellMaxLng },
    photos := g.2, count := g.2.length }

/-- gridCalculator.ts lines 61-161.  `cosCenterLat` stands for the value of
`Math.cos((centerLat * π) / 180)` computed at line 38 from the bounding-box
center; the seed of each fold over the nonempty photo list replaces the
±Infinity seeds of the source. -/
def buildPhotoGrid (photos : List PhotoLocation) (cellSizeMeters cosCenterLat : ℚ) : GridStats :=
  match photos with
  | [] => { cells := [], maxCount := 0, totalCells := 0, cellSizeMeters }
  | p0 :: _ =>
    let minLat := photos.foldl (fun acc p => min acc p.latitude) p0.latitude
    let maxLat := photos.foldl (fun acc p => max acc p.latitude) p0.latitude
    let minLng := photos.foldl (fun acc p => min acc p.longitude) p0.longitude
    let maxLng := photos.foldl (fun acc p => max acc p.longitude) p0.longitude
    let padLat := metersToDegreesLat cellSizeMeters
    let padLng := metersToDegreesLng cellSizeMeters cosCenterLat
    let originLat := minLat - padLat
    let originLng := minLng - padLng
    let cellSizeLat := metersToDegreesLat cellSizeMeters
    let cellSizeLng := metersToDegreesLng cellSizeMeters cosCenterLat
    let cellMap := photos.foldl (fun m p =>
      insertPhoto (getGridIndex p.latitude p.longitude originLat originLng cellSizeLat cellSizeLng) p m) []
    let maxCount := cellMap.foldl (fun acc g => max acc g.2.length) 0
    let cells := sortByCountDesc GridCell.count
      (cellMap.map (buildGridCell originLat originLng cellSizeLat cellSizeLng))
    { cells, maxCount, totalCells := cells.length, cellSizeMeters }

inductive AdminLevel where
  | prefecture
  | city
  | town
deriving DecidableEq

/-- An admin area cell; as with `GridCell`, the source's `intensity` field is
`logIntensity count maxCount` and the record carries the `count`. -/
structure AdminAreaCell where
  id : Str
  name : Str
  level : AdminLevel
  photos : List PhotoLocation
  count : ℕ
  centerLat : ℚ
  centerLng : ℚ
deriving DecidableEq

structure AdminBoundaryStats where
  cells : List AdminAreaCell
  maxCount : ℕ
  totalAreas : ℕ
  level : AdminLevel
deriving DecidableEq

/-- adminBoundaryCalculator.ts lines 44-64: the bucket key before the 不明
default.  Note the level-city branch requires `photo.city` truthy: a photo
with only a prefecture falls through to `none`. -/
def areaNameOpt (photo : PhotoLocation) (level : AdminLevel) : Option Str :=
  match level with
  | .prefecture => jsOr photo.prefecture none
  | .city =>
    if truthy photo.prefecture ∧ truthy photo.city then
      some (photo.prefecture.getD [] ++ str " " ++ photo.city.getD [])
    else if truthy photo.city then photo.city
    else none
  | .town =>
    if truthy photo.city ∧ truthy photo.town then
      some (photo.city.getD [] ++ str " " ++ photo.town.getD [])
    else if truthy photo.town then photo.town
    else none

/-- adminBoundaryCalculator.ts lines 65-67: `if (!areaName) areaName = '不明'`. -/
def areaName (photo : PhotoLocation) (level : AdminLevel) : Str :=
  if truthy (areaNameOpt photo level) then (areaNameOpt photo level).getD []
  else str "不明"

/-- One entry of the area map: photos plus the running centroid. -/
structure AreaAcc where
  photos : List PhotoLocation
  centerLat : ℚ
  centerLng : ℚ
deriving DecidableEq

/-- adminBoundaryCalculator.ts lines 73-77: push the photo, then update the
running mean with `(center * (photos.length - 1) + point) / photos.length`
where the length is taken after the push. -/
def pushPhoto (acc : AreaAcc) (photo : PhotoLocation) : AreaAcc :=
  let photos := acc.photos ++ [photo]
  let n : ℚ := photos.length
  { photos,
    centerLat := (acc.centerLat * (n - 1) + photo.latitude) / n,
    centerLng := (acc.centerLng * (n - 1) + photo.longitude) / n }

/-- adminBoundaryCalculator.ts lines 69-78: Map get-or-create (fresh entries
start as `{photos: [], centerLat: 0, centerLng: 0}`) plus the shared update. -/
def insertArea (key : Str) (photo : PhotoLocation) :
    List (Str × AreaAcc) → List (Str × AreaAcc)
  | [] => [(key, pushPhoto { photos := [], centerLat := 0, centerLng := 0 } photo)]
  | (k, acc) :: rest =>
    if k = key then (k, pushPhoto acc photo) :: rest
    else (k, acc) :: insertArea key photo rest

/-- adminBoundaryCalculator.ts lines 33-115. -/
def buildAdminBoundaryStats (photos : List PhotoLocation) (level : AdminLevel) :
    AdminBoundaryStats :=
  match photos with
  | [] => { cells := [], maxCount := 0, totalAreas := 0, level }
  | _ :: _ =>
    let areaMap := photos.foldl (fun m p => insertArea (areaName p level) p m) []
    let maxCount := areaMap.foldl (fun acc g => max acc g.2.photos.length) 0
    let cells := sortByCountDesc AdminAreaCell.count (areaMap.map (fun g =>
      ({ id := g.1, name := g.1, level, photos := g.2.photos,
         count := g.2.photos.length, centerLat := g.2.centerLat,
         centerLng := g.2.centerLng } : AdminAreaCell)))
    { cells, maxCount, totalAreas := cells.length, level }

/-- A sample observation used by concrete test instances. -/
def samplePhoto (lat lng : ℚ) (pref city town : Option Str) : PhotoLocation :=
  { id := [], filename := [], latitude := lat, longitude := lng, timestamp := 0,
    thumbnailUrl := [], prefecture := pref, city := city, town := town }

/-- The log-scale intensity law shared by gridCalculator.ts lines 126-127 and
adminBoundaryCalculator.ts line 92:
`maxCount > 0 ? Math.log(count + 1) / Math.log(maxCount + 1) : 0`, with
`Math.log` read as the real natural logarithm.  Every produced cell stores
`logIntensity cell.count run.maxCount` as its intensity. -/
noncomputable def logIntensity (count maxCount : ℕ) : ℝ :=
  if 0 < maxCount then Real.log (count + 1) / Real.log (maxCount + 1) else 0

/-! ## Suffix-stripping normalizers (claim C5) -/

theorem strip_concat_self (c : Char) (x : Str) : stripCharSuffix c (x ++ [c]) = x := by
  simp [stripCharSuffix, List.getLast?_concat, List.dropLast_concat]

theorem strip_concat_ne (c d : Char) (x : Str) (h : d ≠ c) :
    stripCharSuffix c (x ++ [d]) = x ++ [d] := by
  simp [stripCharSuffix, List.getLast?_concat, h]

theorem strip_of_not_ends (c : Char) (x : Str) (h : x.getLast? ≠ some c) :
    stripCharSuffix c x = x := by
  simp [stripCharSuffix, h]

/-- C5 counterexample: the prefecture normalizer strips more than one suffix
from an input ending in a chain of generic suffixes.  On "府都" the chained
replaces remove the trailing 都 and then the newly exposed trailing 府,
returning "" where the claim ("exactly one trailing suffix") demands "府". -/
theorem normalize_suffix_chain_counterexample :
    normalizePrefectureName (str "府都") = str "" ∧ str "" ≠ str "府" := by
  constructor
  · decide
  · decide

/-- C5 (amended): each normalizer applies its suffix strips in a fixed order
(都, 道, 府, 県 for prefectures; 市, 区, 町, 村, 郡 for cities), each strip
removing at most one trailing character, followed by a whitespace trim.  A
trimmed string ending in none of the suffixes is returned unchanged, and a
trimmed string `x ++ [c]` with suffix `c` whose stem `x` ends in no suffix
loses exactly that one suffix; but chains such as "府都" lose more than one. -/
theorem normalize_suffix_amended :
    (∀ s : Str, (∀ c ∈ ['都', '道', '府', '県'], s.getLast? ≠ some c) → jsTrim s = s →
      normalizePrefectureName s = s)
    ∧ (∀ (x : Str) (c : Char), c ∈ ['都', '道', '府', '県'] →
        (∀ d ∈ ['都', '道', '府', '県'], x.getLast? ≠ some d) → jsTrim x = x →
        normalizePrefectureName (x ++ [c]) = x)
    ∧ (∀ s : Str, (∀ c ∈ ['市', '区', '町', '村', '郡'], s.getLast? ≠ some c) → jsTrim s = s →
      normalizeCityName s = s)
    ∧ (∀ (x : Str) (c : Char), c ∈ ['市', '区', '町', '村', '郡'] →
        (∀ d ∈ ['市', '区', '町', '村', '郡'], x.getLast? ≠ some d) → jsTrim x = x →
        normalizeCityName (x ++ [c]) = x) := by
  refine ⟨?_, ?_, ?_, ?_⟩
  · intro s h ht
    unfold normalizePrefectureName
    rw [strip_of_not_ends '都' s (h '都' (by simp)), strip_of_not_ends '道' s (h '道' (by simp)),
      strip_of_not_ends '府' s (h '府' (by simp)), strip_of_not_ends '県' s (h '県' (by simp)), ht]
  · intro x c hc hx ht
    unfold normalizePrefectureName
    simp only [List.mem_cons, List.not_mem_nil, or_false] at hc
    rcases hc with rfl | rfl | rfl | rfl
    · rw [strip_concat_self, strip_of_not_ends '道' x (hx '道' (by simp)),
        strip_of_not_ends '府' x (hx '府' (by simp)),
        strip_of_not_ends '県' x (hx '県' (by simp)), ht]
    · rw [strip_concat_ne '都' '道' x (by decide), strip_concat_self,
        strip_of_not_ends '府' x (hx '府' (by simp)),
        strip_of_not_ends '県' x (hx '県' (by simp)), ht]
    · rw [strip_concat_ne '都' '府' x (by decide), strip_concat_ne '道' '府' x (by decide),
        strip_concat_self, strip_of_not_ends '県' x (hx '県' (by simp)), ht]
    · rw [strip_concat_ne '都' '県' x (by decide), strip_concat_ne '道' '県' x (by decide),
        strip_concat_ne '府' '県' x (by decide), strip_concat_self, ht]
  · intro s h ht
    unfold normalizeCityName
    rw [strip_of_not_ends '市' s (h '市' (by simp)), strip_of_not_ends '区' s (h '区' (by simp)),
      strip_of_not_ends '町' s (h '町' (by simp)), strip_of_not_ends '村' s (h '村' (by simp)),
      strip_of_not_ends '郡' s (h '郡' (by simp)), ht]
  · intro x c hc hx ht
    unfold normalizeCityName
    simp only [List.mem_cons, List.not_mem_nil, or_false] at hc
    rcases hc with rfl | rfl | rfl | rfl | rfl
    · rw [strip_concat_self, strip_of_not_ends '区' x (hx '区' (by simp)),
        strip_of_not_ends '町' x (hx '町' (by simp)),
        strip_of_not_ends '村' x (hx '村' (by simp)),
        strip_of_not_ends '郡' x (hx '郡' (by simp)), ht]
    · rw [strip_concat_ne '市' '区' x (by decide), strip_concat_self,
        strip_of_not_ends '町' x (hx '町' (by simp)),
        strip_of_not_ends '村' x (hx '村' (by simp)),
        strip_of_not_ends '郡' x (hx '郡' (by simp)), ht]
    · rw [strip_concat_ne '市' '町' x (by decide), strip_concat_ne '区' '町' x (by decide),
        strip_concat_self, strip_of_not_ends '村' x (hx '村' (by simp)),
        strip_of_not_ends '郡' x (hx '郡' (by simp)), ht]
    · rw [strip_concat_ne '市' '村' x (by decide), strip_concat_ne '区' '村' x (by decide),
        strip_concat_ne '町' '村' x (by decide), strip_concat_self,
        strip_of_not_ends '郡' x (hx '郡' (by simp)), ht]
    · rw [strip_concat_ne '市' '郡' x (by decide), strip_concat_ne '区' '郡' x (by decide),
        strip_concat_ne '町' '郡' x (by decide), strip_concat_ne '村' '郡' x (by decide),
        strip_concat_self, ht]

/-- Witness for the amended C5 theorem at concrete inputs 東京+都 and 中野+区. -/
theorem normalize_suffix_amended_witness :
    normalizePrefectureName (str "東京" ++ ['都']) = str "東京"
    ∧ normalizeCityName (str "中野" ++ ['区']) = str "中野" :=
  ⟨normalize_suffix_amended.2.1 (str "東京") '都' (by decide) (by decide) (by decide),
   normalize_suffix_amended.2.2.2 (str "中野") '区' (by decide) (by decide) (by decide)⟩

/-! ## Kanji numeral parsing (claim C4) -/

theorem kanjiDigit_ne_ten (c : Char) (n : ℕ) (h : kanjiDigit c = some n) : c ≠ '十' := by
  intro e
  subst e
  exact Option.noConfusion h

/-- C4 counterexample: `kanjiToNumber` does not return None on every string
outside the grammar `[一-九]?十[一-九]?` — on "十十" the split on 十 yields
empty first and second segments, which default to tens=1, ones=0, so the
function returns 10 although the string is outside the grammar. -/
theorem kanjiToNumber_outside_grammar_counterexample :
    kanjiToNumber (str "十十") = KanjiNum.num 10 ∧ inKanjiGrammar (str "十十") = false := by
  constructor
  · decide
  · decide

/-- C4 (amended): `kanjiToNumber` returns 1-9 on the bare digits 一-九, 10 on
the literal 十, and the value tens*10+ones on the grammar compounds; on a
string without 十 outside the grammar it returns null (e.g. "百"); but on
any string containing 十 it consults only the first two 十-separated
segments, ignoring everything after the second 十: an empty segment
defaults (tens=1, ones=0), a bare digit contributes its value, a segment
naming an inherited Object.prototype property passes the null checks and
makes the arithmetic return NaN (e.g. "constructor十"), and any other
segment returns null — so some strings outside the grammar are accepted
(e.g. "十十" gives 10). -/
theorem kanjiToNumber_amended :
    (∀ (c : Char) (n : ℕ), kanjiDigit c = some n → kanjiToNumber [c] = KanjiNum.num n)
    ∧ kanjiToNumber (str "十") = KanjiNum.num 10
    ∧ (∀ (a : Char) (t : ℕ), kanjiDigit a = some t →
        kanjiToNumber [a, '十'] = KanjiNum.num (t * 10))
    ∧ (∀ (b : Char) (o : ℕ), kanjiDigit b = some o →
        kanjiToNumber ['十', b] = KanjiNum.num (10 + o))
    ∧ (∀ (a b : Char) (t o : ℕ), kanjiDigit a = some t → kanjiDigit b = some o →
        kanjiToNumber [a, '十', b] = KanjiNum.num (t * 10 + o))
    ∧ (∀ s : Str, s.contains '十' = false → inKanjiGrammar s = false →
        kanjiToNumber s = KanjiNum.null)
    ∧ (∀ s : Str, s.contains '十' = true → s ≠ str "十" →
        kanjiToNumber s =
          match (if ((splitOnChar '十' s).getD 0 []).isEmpty then MapLookup.digit 1
                  else kanjiLookup ((splitOnChar '十' s).getD 0 [])) with
          | MapLookup.undef => KanjiNum.null
          | tens =>
            match (if ((splitOnChar '十' s).getD 1 []).isEmpty then MapLookup.digit 0
                    else kanjiLookup ((splitOnChar '十' s).getD 1 [])) with
            | MapLookup.undef => KanjiNum.null
            | ones =>
              match tens, ones with
              | MapLookup.digit t, MapLookup.digit o => KanjiNum.num (t * 10 + o)
              | _, _ => KanjiNum.nan)
    ∧ kanjiToNumber (str "constructor十") = KanjiNum.nan
    ∧ kanjiToNumber (str "百") = KanjiNum.null := by
  refine ⟨?_, by decide, ?_, ?_, ?_, ?_, ?_, by decide, by decide⟩
  · intro c n h
    have hne : c ≠ '十' := kanjiDigit_ne_ten c n h
    simp [kanjiToNumber, str, hne, h, Ne.symm hne]
  · intro a t h
    have hne : a ≠ '十' := kanjiDigit_ne_ten a t h
    simp [kanjiToNumber, str, hne, splitOnChar, kanjiLookup, h]
  · intro b o h
    have hne : b ≠ '十' := kanjiDigit_ne_ten b o h
    simp [kanjiToNumber, str, hne, splitOnChar, kanjiLookup, h]
  · intro a b t o ha hb
    have hna : a ≠ '十' := kanjiDigit_ne_ten a t ha
    have hnb : b ≠ '十' := kanjiDigit_ne_ten b o hb
    simp [kanjiToNumber, str, hna, hnb, splitOnChar, kanjiLookup, ha, hb]
  · intro s h1 h2
    match s with
    | [] => simp [kanjiToNumber]
    | [c] =>
      simp only [inKanjiGrammar, Bool.or_eq_false_iff, beq_eq_false_iff_ne, ne_eq] at h2
      have hkd : kanjiDigit c = none := by
        cases hkc : kanjiDigit c with
        | none => rfl
        | some v => rw [hkc] at h2; simp at h2
      simp [kanjiToNumber, str, h2.1, Ne.symm h2.1, hkd, h1]
    | c :: d :: rest =>
      have hne : (c :: d :: rest : Str) ≠ str "十" := by
        simp [str]
      simp only [kanjiToNumber, h1]
      simp [hne, show ¬((c :: d :: rest : Str).isEmpty = true) by simp]
  · intro s h1 h2
    have hne : s.isEmpty = false := by
      cases s with
      | nil => simp [List.contains] at h1
      | cons c rest => rfl
    unfold kanjiToNumber
    rw [hne, h1]
    simp only [Bool.false_eq_true, if_false, Bool.not_true, if_neg h2]

/-- Witness for the amended C4 theorem: 二十三 parses to 23 through the
compound rule, with both digit lookups discharged concretely. -/
theorem kanjiToNumber_amended_witness :
    kanjiToNumber ['二', '十', '三'] = KanjiNum.num (2 * 10 + 3) :=
  kanjiToNumber_amended.2.2.2.2.1 '二' '三' 2 3 (by decide) (by decide)

/-! ## Administrative resolver (claims C6, C7) -/

/-- C6: a response whose locality is 中野区 with place and region both 東京都
resolves to prefecture 東京都 and city 中野区, for every district,
neighborhood and address accompanying it: the locality-ends-with-区 rule
fires before the place==region fallback. -/
theorem ward_rule_beats_place_eq_region (district neighborhood address : Option Str) :
    (resolveAdmin (some (str "東京都")) district (some (str "東京都")) (some (str "中野区"))
        neighborhood address).prefecture = some (str "東京都")
    ∧ (resolveAdmin (some (str "東京都")) district (some (str "東京都")) (some (str "中野区"))
        neighborhood address).city = some (str "中野区") := by
  constructor
  · rfl
  · rfl

/-- Concrete evaluation used by the C7 counterexample and witness: a response
whose locality is the empty string and whose address line is a single space
produces city = "" and town = "" through the fallback branch, and the
town==city guard does not fire because the empty string is falsy. -/
theorem resolveAdmin_empty_eval :
    resolveAdmin none none none (some []) none (some [' ']) =
      { prefecture := none, city := some [], town := some [] } := by
  have h2 : stripJsSpace (toHalfWidthDigits [' ']) = [] := by decide
  have h1 : extractChomeFromAddress (some [' ']) = some [] := by
    simp [extractChomeFromAddress, normalizeChome, h2, convertChome, truncChome]
  simp [resolveAdmin, resolveAdminCore, fixTown, h1, jsOr, truthy]

/-- C7 counterexample: the resolver can output `town` textually equal to
`city` — both the empty string — because the nulling guard requires both to
be truthy and the empty string is falsy. -/
theorem town_city_empty_counterexample :
    (resolveAdmin none none none (some []) none (some [' '])).town =
      (resolveAdmin none none none (some []) none (some [' '])).city
    ∧ (resolveAdmin none none none (some []) none (some [' '])).town = some (str "") := by
  rw [resolveAdmin_empty_eval]
  exact ⟨rfl, rfl⟩

theorem fixTown_eq_empty (c0 t0 : Option Str) (t c : Str)
    (ht : fixTown c0 t0 = some t) (hc : c0 = some c) (he : t = c) : t = [] := by
  by_cases h : truthy t0 ∧ truthy c0 ∧ t0 = c0
  · rw [fixTown, if_pos h] at ht
    exact Option.noConfusion ht
  · rw [fixTown, if_neg h] at ht
    subst hc
    push_neg at h
    by_cases h2 : truthy t0
    · by_cases h3 : truthy (some c)
      · exact absurd (by rw [ht, he]) (h h2 h3)
      · simp [truthy, List.isEmpty_iff] at h3
        rw [he, h3]
    · rw [ht] at h2
      simp [truthy, List.isEmpty_iff] at h2
      exact h2

/-- C7 (amended): whenever the classification makes `town` and `city`
identical strings, either the guard nulls `town` (so they can only surface
equal when the shared string is empty, which is falsy in JS and escapes the
guard), and the guard never changes `city` or `prefecture`. -/
theorem town_never_equals_city_amended :
    (∀ region district place locality neighborhood address (t c : Str),
        (resolveAdmin region district place locality neighborhood address).town = some t →
        (resolveAdmin region district place locality neighborhood address).city = some c →
        t = c → t = [])
    ∧ (∀ region district place locality neighborhood address : Option Str,
        (resolveAdmin region district place locality neighborhood address).city =
          (resolveAdminCore region district place locality neighborhood address).city
        ∧ (resolveAdmin region district place locality neighborhood address).prefecture =
          (resolveAdminCore region district place locality neighborhood address).prefecture) := by
  constructor
  · intro region district place locality neighborhood address t c ht hc he
    exact fixTown_eq_empty
      (resolveAdminCore region district place locality neighborhood address).city
      (resolveAdminCore region district place locality neighborhood address).town t c ht hc he
  · intro region district place locality neighborhood address
    exact ⟨rfl, rfl⟩

/-- Witness for the amended C7 theorem at the empty-string instance. -/
theorem town_never_equals_city_amended_witness :
    (str "") = [] :=
  town_never_equals_city_amended.1 none none none (some []) none (some [' ']) (str "") (str "")
    (by rw [resolveAdmin_empty_eval]; rfl) (by rw [resolveAdmin_empty_eval]; rfl) rfl

/-! ## Boundary matching (claim C9) -/

theorem leadsWith_iff : ∀ (s p : Str), leadsWith s p = true ↔ ∃ v, s = p ++ v := by
  intro s p
  induction p generalizing s with
  | nil => cases s <;> simp [leadsWith]
  | cons d p ih =>
    cases s with
    | nil => simp [leadsWith]
    | cons c s2 =>
      simp only [leadsWith, Bool.and_eq_true, beq_iff_eq, ih, List.cons_append]
      constructor
      · rintro ⟨rfl, v, rfl⟩
        exact ⟨v, rfl⟩
      · rintro ⟨v, hv⟩
        injection hv with hv1 hv2
        exact ⟨hv1, v, hv2⟩

theorem jsIncludes_iff : ∀ (s p : Str), jsIncludes s p = true ↔ ∃ u v, s = u ++ p ++ v := by
  intro s p
  induction s with
  | nil =>
    cases p with
    | nil => simp [jsIncludes]
    | cons x xs => simp [jsIncludes]
  | cons c s2 ih =>
    simp only [jsIncludes, Bool.or_eq_true, ih, leadsWith_iff]
    constructor
    · rintro (⟨v, hv⟩ | ⟨u, v, hv⟩)
      · exact ⟨[], v, by simpa using hv⟩
      · exact ⟨c :: u, v, by simp [hv]⟩
    · rintro ⟨u, v, hv⟩
      cases u with
      | nil => exact Or.inl ⟨v, by simpa using hv⟩
      | cons x u2 =>
        refine Or.inr ?_
        rw [List.cons_append, List.cons_append] at hv
        injection hv with hv1 hv2
        exact ⟨u2, v, hv2⟩

/-- C9: the boundary match predicate holds exactly when the two names are
equal or one contains the other as a contiguous substring; and the target
key "東京都 中野" matches the polygon named "中野区" (after suffix-stripping
"中野" is contained in "東京都 中野"), so createCityFeatures emits exactly
one feature carrying the target's count and intensity. -/
theorem boundary_match_predicate_and_nakano :
    (∀ a b : Str, isNameMatch a b = true ↔
        (a = b ∨ (∃ u v, a = u ++ b ++ v) ∨ (∃ u v, b = u ++ a ++ v)))
    ∧ ∀ (cnt : ℕ) (inten : ℚ),
        createCityFeatures
          [{ props := some ⟨some (str "中野区"), none, none, none⟩,
             geometry := Geometry.polygon 0 }]
          [(str "東京都 中野", { count := cnt, intensity := inten })] =
        [{ name := str "中野区", matchedName := str "東京都 中野", count := cnt,
           intensity := inten, geometry := Geometry.polygon 0 }] := by
  constructor
  · intro a b
    simp [isNameMatch, jsIncludes_iff, beq_iff_eq, or_assoc]
  · intro cnt inten
    rfl

/-! ## Grid aggregation (claims C1, C2) -/

theorem sum_insertPhoto (key : ℤ × ℤ) (p : PhotoLocation)
    (m : List ((ℤ × ℤ) × List PhotoLocation)) :
    ((insertPhoto key p m).map (fun g => g.2.length)).sum
      = ((m.map (fun g => g.2.length)).sum) + 1 := by
  induction m with
  | nil => simp [insertPhoto]
  | cons g rest ih =>
    obtain ⟨k, ps⟩ := g
    by_cases h : k = key
    · simp only [insertPhoto, if_pos h, List.map_cons, List.sum_cons, List.length_append]
      simp
      omega
    · simp only [insertPhoto, if_neg h, List.map_cons, List.sum_cons, ih]
      omega

theorem sum_foldl_insertPhoto (keyOf : PhotoLocation → ℤ × ℤ) :
    ∀ (photos : List PhotoLocation) (m : List ((ℤ × ℤ) × List PhotoLocation)),
      (((photos.foldl (fun m p => insertPhoto (keyOf p) p m) m).map (fun g => g.2.length)).sum)
        = ((m.map (fun g => g.2.length)).sum) + photos.length := by
  intro photos
  induction photos with
  | nil => intro m; simp
  | cons p rest ih =>
    intro m
    simp only [List.foldl_cons, List.length_cons]
    rw [ih (insertPhoto (keyOf p) p m), sum_insertPhoto]
    omega

theorem sum_counts_sorted_cells (originLat originLng cellSizeLat cellSizeLng : ℚ)
    (M : List ((ℤ × ℤ) × List PhotoLocation)) :
    ((sortByCountDesc GridCell.count
        (M.map (buildGridCell originLat originLng cellSizeLat cellSizeLng))).map GridCell.count).sum
      = (M.map (fun g => g.2.length)).sum := by
  have hperm := List.mergeSort_perm
      (M.map (buildGridCell originLat originLng cellSizeLat cellSizeLng))
      (fun a b => decide (GridCell.count b ≤ GridCell.count a))
  have h2 := (hperm.map GridCell.count).sum_eq
  rw [sortByCountDesc, h2, List.map_map]
  rfl

/-- C1: for every non-empty observation list and positive cell size, the
counts of the grid cells produced by buildPhotoGrid sum to the number of
input observations (the grouping partitions the observations). -/
theorem buildPhotoGrid_counts_sum_to_input_length
    (photos : List PhotoLocation) (cellSizeMeters cosCenterLat : ℚ)
    (h1 : photos ≠ []) (h2 : 0 < cellSizeMeters) :
    (((buildPhotoGrid photos cellSizeMeters cosCenterLat).cells).map GridCell.count).sum
      = photos.length := by
  obtain ⟨p0, ps, rfl⟩ := List.exists_cons_of_ne_nil h1
  simp only [buildPhotoGrid]
  rw [sum_counts_sorted_cells, sum_foldl_insertPhoto]
  simp

/-- Witness for C1 at a singleton observation list with cell size 500. -/
theorem buildPhotoGrid_counts_sum_witness :
    ([samplePhoto 0 0 none none none] ≠ ([] : List PhotoLocation))
    ∧ (0 : ℚ) < 500
    ∧ (((buildPhotoGrid [samplePhoto 0 0 none none none] 500 1).cells).map GridCell.count).sum
        = ([samplePhoto 0 0 none none none] : List PhotoLocation).length :=
  ⟨by simp, by norm_num,
   buildPhotoGrid_counts_sum_to_input_length [samplePhoto 0 0 none none none] 500 1
     (by simp) (by norm_num)⟩

theorem foldl_max_facts {α : Type} (f : α → ℕ) :
    ∀ (l : List α) (a : ℕ), a ≤ l.foldl (fun acc x => max acc (f x)) a
      ∧ ∀ x ∈ l, f x ≤ l.foldl (fun acc x => max acc (f x)) a := by
  intro l
  induction l with
  | nil => intro a; exact ⟨le_refl a, by simp⟩
  | cons y rest ih =>
    intro a
    simp only [List.foldl_cons]
    refine ⟨le_trans (le_max_left a (f y)) (ih (max a (f y))).1, ?_⟩
    intro x hx
    rcases List.mem_cons.mp hx with rfl | hx2
    · exact le_trans (le_max_right a (f x)) (ih (max a (f x))).1
    · exact (ih (max a (f y))).2 x hx2

theorem insertPhoto_groups_nonempty (key : ℤ × ℤ) (p : PhotoLocation)
    (m : List ((ℤ × ℤ) × List PhotoLocation)) (h : ∀ g ∈ m, g.2 ≠ []) :
    ∀ g ∈ insertPhoto key p m, g.2 ≠ [] := by
  induction m with
  | nil =>
    intro g hg
    simp only [insertPhoto, List.mem_singleton] at hg
    simp [hg]
  | cons e rest ih =>
    obtain ⟨k, ps⟩ := e
    intro g hg
    simp only [insertPhoto] at hg
    by_cases hk : k = key
    · rw [if_pos hk] at hg
      rcases List.mem_cons.mp hg with rfl | hg2
      · simp
      · exact h g (List.mem_cons_of_mem _ hg2)
    · rw [if_neg hk] at hg
      rcases List.mem_cons.mp hg with rfl | hg2
      · exact h (k, ps) (List.mem_cons_self _ _)
      · exact ih (fun g2 hg3 => h g2 (List.mem_cons_of_mem _ hg3)) g hg2

theorem foldl_insertPhoto_groups_nonempty (keyOf : PhotoLocation → ℤ × ℤ) :
    ∀ (photos : List PhotoLocation) (m : List ((ℤ × ℤ) × List PhotoLocation)),
      (∀ g ∈ m, g.2 ≠ []) →
      ∀ g ∈ photos.foldl (fun m p => insertPhoto (keyOf p) p m) m, g.2 ≠ [] := by
  intro photos
  induction photos with
  | nil => intro m h; simpa using h
  | cons p rest ih =>
    intro m h
    simp only [List.foldl_cons]
    exact ih _ (insertPhoto_groups_nonempty _ _ _ h)

/-- Mathematical core of the intensity law: for a cell count between 1 and
the run maximum, the log-scaled intensity lies in [0,1], and it is exactly 1
at the maximum. -/
theorem logIntensity_facts (c M : ℕ) (h1 : 1 ≤ c) (h2 : c ≤ M) :
    logIntensity c M ∈ Set.Icc (0:ℝ) 1 ∧ (c = M → logIntensity c M = 1) := by
  have hM : 0 < M := lt_of_lt_of_le (by omega : 0 < c) h2
  have hM1 : (1:ℝ) < (M:ℝ) + 1 := by
    have h3 : (1:ℝ) ≤ (M:ℝ) := by exact_mod_cast hM
    linarith
  have hlogM : 0 < Real.log ((M:ℝ) + 1) := Real.log_pos hM1
  refine ⟨⟨?_, ?_⟩, ?_⟩
  · rw [logIntensity, if_pos hM]
    refine div_nonneg ?_ (le_of_lt hlogM)
    refine Real.log_nonneg ?_
    have h4 : (0:ℝ) ≤ (c:ℝ) := Nat.cast_nonneg c
    linarith
  · rw [logIntensity, if_pos hM]
    rw [div_le_one hlogM]
    refine Real.log_le_log (by positivity) ?_
    have h5 : (c:ℝ) ≤ (M:ℝ) := by exact_mod_cast h2
    linarith
  · intro he
    subst he
    rw [logIntensity, if_pos hM]
    exact div_self (ne_of_gt hlogM)

theorem grid_cell_count_facts (photos : List PhotoLocation) (cellSizeMeters cosCenterLat : ℚ) :
    ∀ cell ∈ (buildPhotoGrid photos cellSizeMeters cosCenterLat).cells,
      1 ≤ cell.count
      ∧ cell.count ≤ (buildPhotoGrid photos cellSizeMeters cosCenterLat).maxCount := by
  cases photos with
  | nil => simp [buildPhotoGrid]
  | cons p0 ps =>
    intro cell hcell
    simp only [buildPhotoGrid] at hcell ⊢
    rw [sortByCountDesc, (List.mergeSort_perm _ _).mem_iff] at hcell
    obtain ⟨g, hg, rfl⟩ := List.mem_map.mp hcell
    constructor
    · have hne := foldl_insertPhoto_groups_nonempty _ (p0 :: ps) [] (by simp) g hg
      have := List.length_pos.mpr hne
      simpa [buildGridCell] using this
    · have := (foldl_max_facts (fun g => g.2.length) _ 0).2 g hg
      simpa [buildGridCell] using this

/-! ## Admin aggregation (claims C2, C3, C8) -/

theorem pushPhoto_center (acc : AreaAcc) (p : PhotoLocation)
    (h1 : acc.centerLat * (acc.photos.length : ℚ) = (acc.photos.map PhotoLocation.latitude).sum)
    (h2 : acc.centerLng * (acc.photos.length : ℚ) = (acc.photos.map PhotoLocation.longitude).sum) :
    (pushPhoto acc p).photos ≠ []
    ∧ (pushPhoto acc p).centerLat * ((pushPhoto acc p).photos.length : ℚ)
        = ((pushPhoto acc p).photos.map PhotoLocation.latitude).sum
    ∧ (pushPhoto acc p).centerLng * ((pushPhoto acc p).photos.length : ℚ)
        = ((pushPhoto acc p).photos.map PhotoLocation.longitude).sum := by
  have hne : (((acc.photos ++ [p]).length : ℕ) : ℚ) ≠ 0 := by
    have h3 : 0 < (acc.photos ++ [p]).length := by simp
    exact_mod_cast Nat.pos_iff_ne_zero.mp h3
  refine ⟨by simp [pushPhoto], ?_, ?_⟩
  · show ((acc.centerLat * (((acc.photos ++ [p]).length : ℚ) - 1) + p.latitude)
        / ((acc.photos ++ [p]).length : ℚ)) * ((acc.photos ++ [p]).length : ℚ)
      = ((acc.photos ++ [p]).map PhotoLocation.latitude).sum
    rw [div_mul_cancel₀ _ hne]
    simp only [List.length_append, List.map_append, List.sum_append, List.length_cons,
      List.length_nil, List.map_cons, List.map_nil, List.sum_cons, List.sum_nil]
    push_cast
    rw [show (acc.photos.length : ℚ) + 1 - 1 = (acc.photos.length : ℚ) by ring]
    rw [h1]
    ring
  · show ((acc.centerLng * (((acc.photos ++ [p]).length : ℚ) - 1) + p.longitude)
        / ((acc.photos ++ [p]).length : ℚ)) * ((acc.photos ++ [p]).length : ℚ)
      = ((acc.photos ++ [p]).map PhotoLocation.longitude).sum
    rw [div_mul_cancel₀ _ hne]
    simp only [List.length_append, List.map_append, List.sum_append, List.length_cons,
      List.length_nil, List.map_cons, List.map_nil, List.sum_cons, List.sum_nil]
    push_cast
    rw [show (acc.photos.length : ℚ) + 1 - 1 = (acc.photos.length : ℚ) by ring]
    rw [h2]
    ring

theorem insertArea_center_inv (key : Str) (p : PhotoLocation) (m : List (Str × AreaAcc))
    (h : ∀ e ∈ m, e.2.photos ≠ []
        ∧ e.2.centerLat * (e.2.photos.length : ℚ) = (e.2.photos.map PhotoLocation.latitude).sum
        ∧ e.2.centerLng * (e.2.photos.length : ℚ) = (e.2.photos.map PhotoLocation.longitude).sum) :
    ∀ e ∈ insertArea key p m, e.2.photos ≠ []
        ∧ e.2.centerLat * (e.2.photos.length : ℚ) = (e.2.photos.map PhotoLocation.latitude).sum
        ∧ e.2.centerLng * (e.2.photos.length : ℚ) = (e.2.photos.map PhotoLocation.longitude).sum := by
  induction m with
  | nil =>
    intro e he
    simp only [insertArea, List.mem_singleton] at he
    subst he
    exact pushPhoto_center _ p (by simp) (by simp)
  | cons g rest ih =>
    obtain ⟨k, acc⟩ := g
    intro e he
    simp only [insertArea] at he
    by_cases hk : k = key
    · rw [if_pos hk] at he
      rcases List.mem_cons.mp he with rfl | he2
      · have hg := h (k, acc) (List.mem_cons_self _ _)
        exact pushPhoto_center acc p hg.2.1 hg.2.2
      · exact h e (List.mem_cons_of_mem _ he2)
    · rw [if_neg hk] at he
      rcases List.mem_cons.mp he with rfl | he2
      · exact h (k, acc) (List.mem_cons_self _ _)
      · exact ih (fun e2 he3 => h e2 (List.mem_cons_of_mem _ he3)) e he2

theorem foldl_insertArea_center_inv (level : AdminLevel) :
    ∀ (photos : List PhotoLocation) (m : List (Str × AreaAcc)),
      (∀ e ∈ m, e.2.photos ≠ []
          ∧ e.2.centerLat * (e.2.photos.length : ℚ) = (e.2.photos.map PhotoLocation.latitude).sum
          ∧ e.2.centerLng * (e.2.photos.length : ℚ) = (e.2.photos.map PhotoLocation.longitude).sum) →
      ∀ e ∈ photos.foldl (fun m p => insertArea (areaName p level) p m) m,
        e.2.photos ≠ []
        ∧ e.2.centerLat * (e.2.photos.length : ℚ) = (e.2.photos.map PhotoLocation.latitude).sum
        ∧ e.2.centerLng * (e.2.photos.length : ℚ) = (e.2.photos.map PhotoLocation.longitude).sum := by
  intro photos
  induction photos with
  | nil =>
    intro m h
    simp only [List.foldl_nil]
    exact h
  | cons p rest ih =>
    intro m h
    simp only [List.foldl_cons]
    exact ih _ (insertArea_center_inv _ _ _ h)

theorem admin_cell_invariants (photos : List PhotoLocation) (level : AdminLevel) :
    ∀ cell ∈ (buildAdminBoundaryStats photos level).cells,
      cell.photos ≠ []
      ∧ cell.centerLat * (cell.photos.length : ℚ) = (cell.photos.map PhotoLocation.latitude).sum
      ∧ cell.centerLng * (cell.photos.length : ℚ) = (cell.photos.map PhotoLocation.longitude).sum
      ∧ cell.count = cell.photos.length
      ∧ cell.count ≤ (buildAdminBoundaryStats photos level).maxCount := by
  cases photos with
  | nil => simp [buildAdminBoundaryStats]
  | cons p0 ps =>
    intro cell hcell
    simp only [buildAdminBoundaryStats] at hcell ⊢
    rw [sortByCountDesc, (List.mergeSort_perm _ _).mem_iff] at hcell
    obtain ⟨g, hg, rfl⟩ := List.mem_map.mp hcell
    have hinv := foldl_insertArea_center_inv level (p0 :: ps) [] (by simp) g hg
    have hmax := (foldl_max_facts (fun g => g.2.photos.length) _ 0).2 g hg
    exact ⟨hinv.1, hinv.2.1, hinv.2.2, rfl, hmax⟩

/-- C2: for every non-empty input, the log-scale intensity attached to every
cell of buildPhotoGrid and of buildAdminBoundaryStats — the function
`logIntensity count maxCount` of the cell's count and the run's maximum,
which the source stores in the cell's `intensity` field — lies in [0,1], and
a cell whose count equals the run maximum has intensity exactly 1. -/
theorem intensity_unit_interval_and_max
    (photos : List PhotoLocation) (cellSizeMeters cosCenterLat : ℚ) (level : AdminLevel)
    (h1 : photos ≠ []) :
    (∀ cell ∈ (buildPhotoGrid photos cellSizeMeters cosCenterLat).cells,
        logIntensity cell.count (buildPhotoGrid photos cellSizeMeters cosCenterLat).maxCount
          ∈ Set.Icc (0:ℝ) 1
      ∧ (cell.count = (buildPhotoGrid photos cellSizeMeters cosCenterLat).maxCount →
          logIntensity cell.count (buildPhotoGrid photos cellSizeMeters cosCenterLat).maxCount = 1))
    ∧ (∀ cell ∈ (buildAdminBoundaryStats photos level).cells,
        logIntensity cell.count (buildAdminBoundaryStats photos level).maxCount ∈ Set.Icc (0:ℝ) 1
      ∧ (cell.count = (buildAdminBoundaryStats photos level).maxCount →
          logIntensity cell.count (buildAdminBoundaryStats photos level).maxCount = 1)) := by
  constructor
  · intro cell hcell
    have hfacts := grid_cell_count_facts photos cellSizeMeters cosCenterLat cell hcell
    exact logIntensity_facts _ _ hfacts.1 hfacts.2
  · intro cell hcell
    have hfacts := admin_cell_invariants photos level cell hcell
    have hpos : 1 ≤ cell.count := by
      rw [hfacts.2.2.2.1]
      exact List.length_pos.mpr hfacts.1
    exact logIntensity_facts _ _ hpos hfacts.2.2.2.2

/-- Witness for C2 at a singleton observation list. -/
theorem intensity_unit_interval_witness :
    ([samplePhoto 0 0 none none none] ≠ ([] : List PhotoLocation))
    ∧ ((∀ cell ∈ (buildPhotoGrid [samplePhoto 0 0 none none none] 500 1).cells,
        logIntensity cell.count (buildPhotoGrid [samplePhoto 0 0 none none none] 500 1).maxCount
          ∈ Set.Icc (0:ℝ) 1
      ∧ (cell.count = (buildPhotoGrid [samplePhoto 0 0 none none none] 500 1).maxCount →
          logIntensity cell.count
            (buildPhotoGrid [samplePhoto 0 0 none none none] 500 1).maxCount = 1))
    ∧ (∀ cell ∈ (buildAdminBoundaryStats [samplePhoto 0 0 none none none] AdminLevel.prefecture).cells,
        logIntensity cell.count
          (buildAdminBoundaryStats [samplePhoto 0 0 none none none] AdminLevel.prefecture).maxCount
          ∈ Set.Icc (0:ℝ) 1
      ∧ (cell.count =
            (buildAdminBoundaryStats [samplePhoto 0 0 none none none] AdminLevel.prefecture).maxCount →
          logIntensity cell.count
            (buildAdminBoundaryStats [samplePhoto 0 0 none none none] AdminLevel.prefecture).maxCount
            = 1))) :=
  ⟨by simp,
   intensity_unit_interval_and_max [samplePhoto 0 0 none none none] 500 1 AdminLevel.prefecture
     (by simp)⟩

theorem sortByCountDesc_singleton {α : Type} (f : α → ℕ) (a : α) :
    sortByCountDesc f [a] = [a] := by
  simp [sortByCountDesc]

/-- C3 counterexample: at level city, an observation carrying a prefecture
but no city is bucketed under the sentinel 不明, not under the prefecture
("whichever of the two is present"), because the level-city branch only
fires when the city field is truthy. -/
theorem areaKey_missing_city_counterexample :
    ((buildAdminBoundaryStats [samplePhoto 0 0 (some (str "東京都")) none none]
        AdminLevel.city).cells.map AdminAreaCell.name) = [str "不明"]
    ∧ str "不明" ≠ str "東京都" := by
  constructor
  · have hn : areaName (samplePhoto 0 0 (some (str "東京都")) none none) AdminLevel.city
        = str "不明" := by decide
    simp only [buildAdminBoundaryStats, List.foldl_cons, List.foldl_nil, insertArea,
      List.map_cons, List.map_nil]
    rw [sortByCountDesc_singleton]
    simp [hn]
  · decide

theorem insertArea_mem_self (key : Str) (p : PhotoLocation) :
    ∀ m : List (Str × AreaAcc), ∃ e ∈ insertArea key p m, e.1 = key ∧ p ∈ e.2.photos := by
  intro m
  induction m with
  | nil =>
    refine ⟨(key, pushPhoto { photos := [], centerLat := 0, centerLng := 0 } p), ?_, rfl, ?_⟩
    · simp [insertArea]
    · simp [pushPhoto]
  | cons g rest ih =>
    obtain ⟨k, acc⟩ := g
    by_cases hk : k = key
    · refine ⟨(k, pushPhoto acc p), ?_, hk, ?_⟩
      · simp only [insertArea, if_pos hk]
        exact List.mem_cons_self _ _
      · simp [pushPhoto]
    · obtain ⟨e, he, h1, h2⟩ := ih
      refine ⟨e, ?_, h1, h2⟩
      simp only [insertArea, if_neg hk]
      exact List.mem_cons_of_mem _ he

theorem insertArea_mem_mono (key nm : Str) (p q : PhotoLocation) :
    ∀ m : List (Str × AreaAcc), (∃ e ∈ m, e.1 = nm ∧ q ∈ e.2.photos) →
      ∃ e ∈ insertArea key p m, e.1 = nm ∧ q ∈ e.2.photos := by
  intro m
  induction m with
  | nil =>
    rintro ⟨e, he, h1, h2⟩
    simp at he
  | cons g rest ih =>
    obtain ⟨k, acc⟩ := g
    rintro ⟨e, he, h1, h2⟩
    rcases List.mem_cons.mp he with rfl | he2
    · by_cases hk : k = key
      · refine ⟨(k, pushPhoto acc p), ?_, h1, ?_⟩
        · simp only [insertArea, if_pos hk]
          exact List.mem_cons_self _ _
        · simp only [pushPhoto, List.mem_append]
          exact Or.inl h2
      · refine ⟨(k, acc), ?_, h1, h2⟩
        simp only [insertArea, if_neg hk]
        exact List.mem_cons_self _ _
    · by_cases hk : k = key
      · refine ⟨e, ?_, h1, h2⟩
        simp only [insertArea, if_pos hk]
        exact List.mem_cons_of_mem _ he2
      · obtain ⟨e2, he3, h3, h4⟩ := ih ⟨e, he2, h1, h2⟩
        refine ⟨e2, ?_, h3, h4⟩
        simp only [insertArea, if_neg hk]
        exact List.mem_cons_of_mem _ he3

theorem foldl_insertArea_mem (level : AdminLevel) :
    ∀ (photos : List PhotoLocation) (m : List (Str × AreaAcc)) (p : PhotoLocation),
      (p ∈ photos ∨ ∃ e ∈ m, e.1 = areaName p level ∧ p ∈ e.2.photos) →
      ∃ e ∈ photos.foldl (fun m q => insertArea (areaName q level) q m) m,
        e.1 = areaName p level ∧ p ∈ e.2.photos := by
  intro photos
  induction photos with
  | nil =>
    intro m p h
    rcases h with h | h
    · simp at h
    · simp only [List.foldl_nil]
      exact h
  | cons q rest ih =>
    intro m p h
    simp only [List.foldl_cons]
    apply ih
    rcases h with h | h
    · rcases List.mem_cons.mp h with rfl | hp2
      · exact Or.inr (insertArea_mem_self _ p m)
      · exact Or.inl hp2
    · exact Or.inr (insertArea_mem_mono _ _ _ _ m h)

/-- C3 (amended): the bucket key of buildAdminBoundaryStats is, at level
city, "{prefecture} {city}" when both fields are truthy, the city alone when
only the city is truthy, and the sentinel 不明 whenever the city is missing
— even if a prefecture is present; symmetrically at level town with
(city, town); and every folded observation lands in the bucket carrying its
derived key. -/
theorem areaKey_derivation_amended :
    (∀ photo : PhotoLocation, truthy photo.prefecture = true → truthy photo.city = true →
      areaName photo AdminLevel.city
        = photo.prefecture.getD [] ++ str " " ++ photo.city.getD [])
    ∧ (∀ photo : PhotoLocation, truthy photo.prefecture = false → truthy photo.city = true →
      areaName photo AdminLevel.city = photo.city.getD [])
    ∧ (∀ photo : PhotoLocation, truthy photo.city = false →
      areaName photo AdminLevel.city = str "不明")
    ∧ (∀ photo : PhotoLocation, truthy photo.city = true → truthy photo.town = true →
      areaName photo AdminLevel.town = photo.city.getD [] ++ str " " ++ photo.town.getD [])
    ∧ (∀ photo : PhotoLocation, truthy photo.city = false → truthy photo.town = true →
      areaName photo AdminLevel.town = photo.town.getD [])
    ∧ (∀ photo : PhotoLocation, truthy photo.town = false →
      areaName photo AdminLevel.town = str "不明")
    ∧ (∀ (photos : List PhotoLocation) (level : AdminLevel) (p : PhotoLocation), p ∈ photos →
      ∃ cell ∈ (buildAdminBoundaryStats photos level).cells,
        p ∈ cell.photos ∧ cell.name = areaName p level) := by
  refine ⟨?_, ?_, ?_, ?_, ?_, ?_, ?_⟩
  · intro photo h1 h2
    have hopt : areaNameOpt photo AdminLevel.city
        = some (photo.prefecture.getD [] ++ str " " ++ photo.city.getD []) := by
      simp [areaNameOpt, h1, h2]
    have h4 : truthy (some (photo.prefecture.getD [] ++ str " " ++ photo.city.getD [])) = true := by
      simp [truthy, str]
    unfold areaName
    rw [hopt, if_pos h4]
    rfl
  · intro photo h1 h2
    have hopt : areaNameOpt photo AdminLevel.city = photo.city := by
      simp [areaNameOpt, h1, h2]
    unfold areaName
    rw [hopt, if_pos h2]
  · intro photo h1
    have hopt : areaNameOpt photo AdminLevel.city = none := by
      simp [areaNameOpt, h1]
    unfold areaName
    rw [hopt]
    rfl
  · intro photo h1 h2
    have hopt : areaNameOpt photo AdminLevel.town
        = some (photo.city.getD [] ++ str " " ++ photo.town.getD []) := by
      simp [areaNameOpt, h1, h2]
    have h4 : truthy (some (photo.city.getD [] ++ str " " ++ photo.town.getD [])) = true := by
      simp [truthy, str]
    unfold areaName
    rw [hopt, if_pos h4]
    rfl
  · intro photo h1 h2
    have hopt : areaNameOpt photo AdminLevel.town = photo.town := by
      simp [areaNameOpt, h1, h2]
    unfold areaName
    rw [hopt, if_pos h2]
  · intro photo h1
    have hopt : areaNameOpt photo AdminLevel.town = none := by
      simp [areaNameOpt, h1]
    unfold areaName
    rw [hopt]
    rfl
  · intro photos level p hp
    cases photos with
    | nil => simp at hp
    | cons p0 ps =>
      obtain ⟨e, he, h1, h2⟩ := foldl_insertArea_mem level (p0 :: ps) [] p (Or.inl hp)
      refine ⟨{ id := e.1, name := e.1, level := level, photos := e.2.photos,
                count := e.2.photos.length, centerLat := e.2.centerLat,
                centerLng := e.2.centerLng }, ?_, h2, h1⟩
      simp only [buildAdminBoundaryStats]
      rw [sortByCountDesc, (List.mergeSort_perm _ _).mem_iff]
      exact List.mem_map.mpr ⟨e, he, rfl⟩

/-- Witness for the amended C3 theorem: a photo with both prefecture and
city present is keyed by the composite "prefecture city" string. -/
theorem areaKey_derivation_amended_witness :
    areaName (samplePhoto 0 0 (some (str "東京都")) (some (str "中野区")) none) AdminLevel.city
      = (samplePhoto 0 0 (some (str "東京都")) (some (str "中野区")) none).prefecture.getD []
        ++ str " "
        ++ (samplePhoto 0 0 (some (str "東京都")) (some (str "中野区")) none).city.getD [] :=
  areaKey_derivation_amended.1 (samplePhoto 0 0 (some (str "東京都")) (some (str "中野区")) none)
    (by decide) (by decide)

/-- C8: the stored center of every area cell is the coordinate-wise
arithmetic mean of the latitudes/longitudes of the cell's observations (the
streaming update computes the exact mean over `ℚ`); and two observations
with identical truthy (prefecture, city) and no town collapse at level city
into one cell with count 2 and center equal to their coordinate-wise mean. -/
theorem admin_center_is_streaming_mean :
    (∀ (photos : List PhotoLocation) (level : AdminLevel),
      ∀ cell ∈ (buildAdminBoundaryStats photos level).cells,
        cell.centerLat = (cell.photos.map PhotoLocation.latitude).sum / (cell.photos.length : ℚ)
        ∧ cell.centerLng = (cell.photos.map PhotoLocation.longitude).sum / (cell.photos.length : ℚ))
    ∧ (∀ p1 p2 : PhotoLocation, truthy p1.prefecture = true → truthy p1.city = true →
        p2.prefecture = p1.prefecture → p2.city = p1.city → p1.town = none → p2.town = none →
        (buildAdminBoundaryStats [p1, p2] AdminLevel.city).cells =
          [{ id := areaName p1 AdminLevel.city, name := areaName p1 AdminLevel.city,
             level := AdminLevel.city, photos := [p1, p2], count := 2,
             centerLat := (p1.latitude + p2.latitude) / 2,
             centerLng := (p1.longitude + p2.longitude) / 2 }]) := by
  constructor
  · intro photos level cell hcell
    have hinv := admin_cell_invariants photos level cell hcell
    have hne : (cell.photos.length : ℚ) ≠ 0 := by
      have h3 := List.length_pos.mpr hinv.1
      exact_mod_cast Nat.pos_iff_ne_zero.mp h3
    exact ⟨(eq_div_iff hne).mpr hinv.2.1, (eq_div_iff hne).mpr hinv.2.2.1⟩
  · intro p1 p2 h1 h2 hp hc ht1 ht2
    have hkey : areaName p2 AdminLevel.city = areaName p1 AdminLevel.city := by
      simp [areaName, areaNameOpt, hp, hc]
    simp only [buildAdminBoundaryStats, List.foldl_cons, List.foldl_nil, hkey]
    simp only [insertArea, eq_self_iff_true, if_true, List.map_cons, List.map_nil]
    rw [sortByCountDesc_singleton]
    simp only [pushPhoto, List.nil_append, List.singleton_append, List.cons.injEq,
      AdminAreaCell.mk.injEq, List.length_cons, List.length_nil, List.length_append]
    norm_num

/-- Witness for C8: two concrete photos sharing (prefecture, city) collapse
into one cell whose center is their coordinate-wise mean. -/
theorem admin_center_mean_witness :
    (buildAdminBoundaryStats
        [samplePhoto 1 2 (some (str "東京都")) (some (str "中野区")) none,
         samplePhoto 3 4 (some (str "東京都")) (some (str "中野区")) none] AdminLevel.city).cells =
      [{ id := areaName (samplePhoto 1 2 (some (str "東京都")) (some (str "中野区")) none)
             AdminLevel.city,
         name := areaName (samplePhoto 1 2 (some (str "東京都")) (some (str "中野区")) none)
             AdminLevel.city,
         level := AdminLevel.city,
         photos := [samplePhoto 1 2 (some (str "東京都")) (some (str "中野区")) none,
                    samplePhoto 3 4 (some (str "東京都")) (some (str "中野区")) none],
         count := 2,
         centerLat := ((samplePhoto 1 2 (some (str "東京都")) (some (str "中野区")) none).latitude
            + (samplePhoto 3 4 (some (str "東京都")) (some (str "中野区")) none).latitude) / 2,
         centerLng := ((samplePhoto 1 2 (some (str "東京都")) (some (str "中野区")) none).longitude
            + (samplePhoto 3 4 (some (str "東京都")) (some (str "中野区")) none).longitude) / 2 }] :=
  admin_center_is_streaming_mean.2
    (samplePhoto 1 2 (some (str "東京都")) (some (str "中野区")) none)
    (samplePhoto 3 4 (some (str "東京都")) (some (str "中野区")) none)
    (by decide) (by decide) rfl rfl rfl rfl

/-! ## Town-name normalizer equivalence (claim C10) -/

theorem isJsSpace_false_of_ascii (c : Char) (h1 : 0x21 ≤ c.toNat) (h2 : c.toNat ≤ 0x7E) :
    isJsSpace c = false := by
  simp only [isJsSpace, Bool.or_eq_false_iff, Bool.and_eq_false_iff, decide_eq_false_iff_not]
  omega

theorem isJsSpace_false_fullwidth (c : Char) (h1 : 0xFF10 ≤ c.toNat) (h2 : c.toNat ≤ 0xFF19) :
    isJsSpace c = false := by
  simp only [isJsSpace, Bool.or_eq_false_iff, Bool.and_eq_false_iff, decide_eq_false_iff_not]
  omega

theorem char_ofNat_toNat (n : ℕ) (h : n < 0xd800) : (Char.ofNat n).toNat = n := by
  unfold Char.ofNat Char.toNat
  rw [dif_pos (Or.inl h)]
  rfl

theorem foldWidthChar_space (c : Char) : isJsSpace (foldWidthChar c) = isJsSpace c := by
  unfold foldWidthChar
  by_cases h : 0xFF10 ≤ c.toNat ∧ c.toNat ≤ 0xFF19
  · rw [if_pos h]
    have hv : (Char.ofNat (c.toNat - 0xFEE0)).toNat = c.toNat - 0xFEE0 :=
      char_ofNat_toNat _ (by omega)
    rw [isJsSpace_false_of_ascii _ (by omega) (by omega),
      isJsSpace_false_fullwidth c h.1 h.2]
  · rw [if_neg h]

theorem strip_fold_comm (s : Str) :
    stripJsSpace (toHalfWidthDigits s) = toHalfWidthDigits (stripJsSpace s) := by
  unfold stripJsSpace toHalfWidthDigits
  rw [List.filter_map]
  congr 1
  apply List.filter_congr
  intro a ha
  simp [Function.comp, foldWidthChar_space]

theorem digitChar_toNat (k : ℕ) (h : k < 10) : (digitChar k).toNat = 48 + k := by
  interval_cases k <;> decide

theorem natToDecimalAux_chars (P : Char → Prop) :
    ∀ (fuel n : ℕ) (acc : Str), (∀ c ∈ acc, P c) → (∀ k, k < 10 → P (digitChar k)) →
      ∀ c ∈ natToDecimalAux fuel n acc, P c := by
  intro fuel
  induction fuel with
  | zero =>
    intro n acc hacc hd c hc
    simp only [natToDecimalAux] at hc
    exact hacc c hc
  | succ fuel ih =>
    intro n acc hacc hd c hc
    simp only [natToDecimalAux] at hc
    by_cases h : n < 10
    · rw [if_pos h] at hc
      rcases List.mem_cons.mp hc with rfl | hc2
      · exact hd n h
      · exact hacc c hc2
    · rw [if_neg h] at hc
      refine ih (n / 10) _ ?_ hd c hc
      intro c2 hc3
      rcases List.mem_cons.mp hc3 with rfl | hc4
      · exact hd _ (Nat.mod_lt _ (by omega))
      · exact hacc c2 hc4

theorem natToDecimal_chars (n : ℕ) : ∀ c ∈ natToDecimal n, 48 ≤ c.toNat ∧ c.toNat ≤ 57 := by
  intro c hc
  refine natToDecimalAux_chars (fun c => 48 ≤ c.toNat ∧ c.toNat ≤ 57) (n + 1) n [] (by simp) ?_ c hc
  intro k hk
  rw [digitChar_toNat k hk]
  omega

theorem ascii_digit_facts (c : Char) (h1 : 48 ≤ c.toNat) (h2 : c.toNat ≤ 57) :
    c ≠ '丁' ∧ c ≠ '目' ∧ isJsSpace c = false := by
  refine ⟨?_, ?_, isJsSpace_false_of_ascii c (by omega) (by omega)⟩
  · intro e
    subst e
    exact absurd h2 (by decide)
  · intro e
    subst e
    exact absurd h2 (by decide)

theorem kanji_char_facts (c : Char) (h : isKanjiNumChar c = true) :
    c ≠ '丁' ∧ c ≠ '目' ∧ isJsSpace c = false := by
  simp only [isKanjiNumChar, Bool.or_eq_true, beq_iff_eq] at h
  rcases h with ((((((((rfl|rfl)|rfl)|rfl)|rfl)|rfl)|rfl)|rfl)|rfl)|rfl <;>
    exact ⟨by decide, by decide, by decide⟩

theorem chomePiece_chars (run : Str) (hrun : ∀ c ∈ run, isKanjiNumChar c = true) :
    ∀ c ∈ chomePiece run, c ≠ '丁' ∧ c ≠ '目' ∧ isJsSpace c = false := by
  intro c
  unfold chomePiece
  cases hkn : kanjiToNumber run with
  | num n =>
    intro hc
    have h2 := natToDecimal_chars n c hc
    exact ascii_digit_facts c h2.1 h2.2
  | nan =>
    intro hc
    have h3 : ∀ d ∈ str "NaN", d ≠ '丁' ∧ d ≠ '目' ∧ isJsSpace d = false := by decide
    exact h3 c hc
  | null =>
    intro hc
    exact kanji_char_facts c (hrun c hc)

theorem dropWhile_append_all (p : Char → Bool) :
    ∀ (a b : Str), (∀ c ∈ a, p c = true) → (a ++ b).dropWhile p = b.dropWhile p := by
  intro a
  induction a with
  | nil => intro b h; simp
  | cons x a2 ih =>
    intro b h
    rw [List.cons_append, List.dropWhile_cons, if_pos (h x (List.mem_cons_self _ _))]
    exact ih b (fun c hc => h c (List.mem_cons_of_mem _ hc))

theorem takeWhile_append_all (p : Char → Bool) :
    ∀ (a b : Str), (∀ c ∈ a, p c = true) → (a ++ b).takeWhile p = a ++ b.takeWhile p := by
  intro a
  induction a with
  | nil => intro b h; simp
  | cons x a2 ih =>
    intro b h
    rw [List.cons_append, List.takeWhile_cons, if_pos (h x (List.mem_cons_self _ _)),
      ih b (fun c hc => h c (List.mem_cons_of_mem _ hc)), List.cons_append]

theorem dropWhile_head_false (p : Char → Bool) :
    ∀ (l : Str) (d : Char) (t : Str), l.dropWhile p = d :: t → p d = false := by
  intro l
  induction l with
  | nil => intro d t h; simp at h
  | cons c rest ih =>
    intro d t h
    rw [List.dropWhile_cons] at h
    by_cases hc : p c
    · rw [if_pos hc] at h
      exact ih d t h
    · rw [if_neg hc] at h
      injection h with h1 h2
      rw [← h1]
      simpa using hc

theorem dropWhile_all_false (p : Char → Bool) (l : Str) (h : ∀ c ∈ l, p c = false) :
    l.dropWhile p = l := by
  cases l with
  | nil => rfl
  | cons c rest => rw [List.dropWhile_cons, if_neg (by simp [h c (List.mem_cons_self _ _)])]

theorem jsTrim_no_space (l : Str) (h : ∀ c ∈ l, isJsSpace c = false) : jsTrim l = l := by
  unfold jsTrim
  rw [dropWhile_all_false _ l h,
    dropWhile_all_false _ l.reverse (fun c hc => h c (List.mem_reverse.mp hc))]
  exact List.reverse_reverse l

theorem convertChome_eq_cho (c : Char) (rest tail : Str) (hk : isKanjiNumChar c = true)
    (heq : (c :: rest).dropWhile isKanjiNumChar = '丁' :: '目' :: tail) :
    convertChome (c :: rest)
      = chomePiece ((c :: rest).takeWhile isKanjiNumChar) ++ '丁' :: '目' :: convertChome tail := by
  simp only [convertChome]
  rw [dif_pos hk]
  split
  · rename_i tail2 heq2
    rw [heq] at heq2
    injection heq2 with e1 e2
    injection e2 with e3 e4
    rw [e4]
  · rename_i hno
    exact absurd heq (hno tail)

theorem convertChome_eq_nocho (c : Char) (rest : Str) (hk : isKanjiNumChar c = true)
    (hno : ∀ tail, (c :: rest).dropWhile isKanjiNumChar ≠ '丁' :: '目' :: tail) :
    convertChome (c :: rest)
      = (c :: rest).takeWhile isKanjiNumChar
        ++ convertChome ((c :: rest).dropWhile isKanjiNumChar) := by
  simp only [convertChome]
  rw [dif_pos hk]

theorem convertChome_eq_cons (c : Char) (rest : Str) (hk : isKanjiNumChar c = false) :
    convertChome (c :: rest) = c :: convertChome rest := by
  simp only [convertChome]
  rw [dif_neg (by simp [hk])]

theorem headIsMe_iff (l : Str) : headIsMe l = true ↔ l.head? = some '目' := by
  cases l with
  | nil => simp [headIsMe]
  | cons c rest => simp [headIsMe]

theorem truncChome_head (l : Str) : (truncChome l).head? = l.head? := by
  cases l with
  | nil => rfl
  | cons c rest =>
    by_cases h : c = '丁' ∧ headIsMe rest
    · simp only [truncChome, if_pos h]
      rw [h.1]
      rfl
    · simp only [truncChome, if_neg h]
      rfl

theorem truncChome_append_no_cho : ∀ (a b : Str), (∀ c ∈ a, c ≠ '丁') →
    truncChome (a ++ b) = a ++ truncChome b := by
  intro a
  induction a with
  | nil => intro b h; simp
  | cons x a2 ih =>
    intro b h
    rw [List.cons_append]
    have hx : ¬(x = '丁' ∧ headIsMe (a2 ++ b)) := fun hc => h x (List.mem_cons_self _ _) hc.1
    simp only [truncChome, if_neg hx]
    rw [ih b (fun c hc => h c (List.mem_cons_of_mem _ hc)), List.cons_append]

theorem truncChome_subset_chars : ∀ (l : Str) (d : Char),
    d ∈ truncChome l → d ∈ l ∨ d = '丁' ∨ d = '目' := by
  intro l
  induction l with
  | nil => intro d hd; simp [truncChome] at hd
  | cons c rest ih =>
    intro d hd
    simp only [truncChome] at hd
    by_cases hc : c = '丁' ∧ headIsMe rest
    · rw [if_pos hc] at hd
      rcases List.mem_cons.mp hd with rfl | hd2
      · exact Or.inr (Or.inl rfl)
      · rcases List.mem_cons.mp hd2 with rfl | hd3
        · exact Or.inr (Or.inr rfl)
        · simp at hd3
    · rw [if_neg hc] at hd
      rcases List.mem_cons.mp hd with rfl | hd2
      · exact Or.inl (List.mem_cons_self _ _)
      · rcases ih d hd2 with h1 | h2
        · exact Or.inl (List.mem_cons_of_mem _ h1)
        · exact Or.inr h2

theorem truncChome_no_cho (l : Str) (h : ∀ t, l ≠ '丁' :: '目' :: t) :
    ∀ t, truncChome l ≠ '丁' :: '目' :: t := by
  intro t ht
  cases l with
  | nil => simp [truncChome] at ht
  | cons c rest =>
    by_cases hc : c = '丁' ∧ headIsMe rest
    · obtain ⟨hc1, hc2⟩ := hc
      cases rest with
      | nil => simp [headIsMe] at hc2
      | cons d r2 =>
        have hd : d = '目' := by simpa [headIsMe] using hc2
        exact h r2 (by rw [hc1, hd])
    · simp only [truncChome, if_neg hc] at ht
      injection ht with h1 h2
      have hm : headIsMe rest = false := by
        by_cases hmm : headIsMe rest
        · exact absurd ⟨h1, hmm⟩ hc
        · simpa using hmm
      have hh : rest.head? = some '目' := by
        rw [← truncChome_head, h2]
        rfl
      rw [← headIsMe_iff] at hh
      rw [hm] at hh
      exact Bool.noConfusion hh

theorem convertChome_headIsMe (l : Str) : headIsMe (convertChome l) = headIsMe l := by
  cases l with
  | nil => simp [convertChome]
  | cons c rest =>
    by_cases hk : isKanjiNumChar c
    · have hcne : c ≠ '目' := (kanji_char_facts c hk).2.1
      have hrhs : headIsMe (c :: rest) = false := by simp [headIsMe, hcne]
      rw [hrhs]
      by_cases hcho : ∃ tail, (c :: rest).dropWhile isKanjiNumChar = '丁' :: '目' :: tail
      · obtain ⟨tail, heq⟩ := hcho
        rw [convertChome_eq_cho c rest tail hk heq]
        rcases hpc : chomePiece ((c :: rest).takeWhile isKanjiNumChar) with _ | ⟨d, t2⟩
        · simp [headIsMe]
        · have hd := chomePiece_chars ((c :: rest).takeWhile isKanjiNumChar)
            (fun c2 hc2 => List.mem_takeWhile_imp hc2) d (by rw [hpc]; exact List.mem_cons_self _ _)
          simp [headIsMe, hd.2.1]
      · push_neg at hcho
        rw [convertChome_eq_nocho c rest hk hcho]
        rw [List.takeWhile_cons, if_pos hk, List.cons_append]
        simp [headIsMe, hcne]
    · have hk2 : isKanjiNumChar c = false := by simpa using hk
      rw [convertChome_eq_cons c rest hk2]
      simp [headIsMe]

theorem convertChome_run_cho (run : Str) (hne : run ≠ [])
    (hall : ∀ c ∈ run, isKanjiNumChar c = true) :
    convertChome (run ++ ['丁', '目']) = chomePiece run ++ ['丁', '目'] := by
  obtain ⟨r0, rs, rfl⟩ := List.exists_cons_of_ne_nil hne
  have hk := hall r0 (List.mem_cons_self _ _)
  have hdrop : ((r0 :: rs) ++ ['丁', '目']).dropWhile isKanjiNumChar = '丁' :: '目' :: [] := by
    rw [dropWhile_append_all isKanjiNumChar (r0 :: rs) ['丁', '目'] hall,
      List.dropWhile_cons, if_neg (by simp [show isKanjiNumChar '丁' = false by decide])]
  have htake : ((r0 :: rs) ++ ['丁', '目']).takeWhile isKanjiNumChar = r0 :: rs := by
    rw [takeWhile_append_all isKanjiNumChar (r0 :: rs) ['丁', '目'] hall,
      List.takeWhile_cons, if_neg (by simp [show isKanjiNumChar '丁' = false by decide]),
      List.append_nil]
  rw [List.cons_append]
  rw [convertChome_eq_cho r0 (rs ++ ['丁', '目']) [] hk (by rw [← List.cons_append]; exact hdrop)]
  rw [← List.cons_append, htake]
  simp [convertChome]

theorem convertChome_append_run (run rest2 : Str) (hne : run ≠ [])
    (hall : ∀ c ∈ run, isKanjiNumChar c = true)
    (hhead : ∀ d t, rest2 = d :: t → isKanjiNumChar d = false)
    (hnocho : ∀ t, rest2 ≠ '丁' :: '目' :: t) :
    convertChome (run ++ rest2) = run ++ convertChome rest2 := by
  obtain ⟨r0, rs, rfl⟩ := List.exists_cons_of_ne_nil hne
  have hk := hall r0 (List.mem_cons_self _ _)
  have hdrop2 : rest2.dropWhile isKanjiNumChar = rest2 := by
    cases rest2 with
    | nil => rfl
    | cons d t => rw [List.dropWhile_cons, if_neg (by simp [hhead d t rfl])]
  have htake2 : rest2.takeWhile isKanjiNumChar = [] := by
    cases rest2 with
    | nil => rfl
    | cons d t => rw [List.takeWhile_cons, if_neg (by simp [hhead d t rfl])]
  have hdrop : ((r0 :: rs) ++ rest2).dropWhile isKanjiNumChar = rest2 := by
    rw [dropWhile_append_all isKanjiNumChar (r0 :: rs) rest2 hall, hdrop2]
  have htake : ((r0 :: rs) ++ rest2).takeWhile isKanjiNumChar = r0 :: rs := by
    rw [takeWhile_append_all isKanjiNumChar (r0 :: rs) rest2 hall, htake2, List.append_nil]
  rw [List.cons_append]
  rw [convertChome_eq_nocho r0 (rs ++ rest2) hk
    (by intro t ht; rw [← List.cons_append, hdrop] at ht; exact hnocho t ht)]
  rw [← List.cons_append, hdrop, htake]

theorem trunc_convert_comm : ∀ x : Str, truncChome (convertChome x) = convertChome (truncChome x) := by
  intro x
  induction x using convertChome.induct with
  | case1 => simp [convertChome, truncChome]
  | case2 c rest hk tail heq ih =>
    have hrun_all : ∀ a ∈ (c :: rest).takeWhile isKanjiNumChar, isKanjiNumChar a = true :=
      fun a ha => List.mem_takeWhile_imp ha
    have hrun_ne : (c :: rest).takeWhile isKanjiNumChar ≠ [] := by
      rw [List.takeWhile_cons, if_pos hk]
      simp
    have hrun_no : ∀ a ∈ (c :: rest).takeWhile isKanjiNumChar, a ≠ '丁' :=
      fun a ha => (kanji_char_facts a (hrun_all a ha)).1
    have hpiece_no : ∀ a ∈ chomePiece ((c :: rest).takeWhile isKanjiNumChar), a ≠ '丁' :=
      fun a ha => (chomePiece_chars _ hrun_all a ha).1
    rw [convertChome_eq_cho c rest tail hk heq]
    rw [truncChome_append_no_cho _ _ hpiece_no]
    have htr : truncChome ('丁' :: '目' :: convertChome tail) = ['丁', '目'] := by
      simp [truncChome, headIsMe]
    rw [htr]
    have htrunc_rhs : truncChome (c :: rest)
        = (c :: rest).takeWhile isKanjiNumChar ++ ['丁', '目'] := by
      conv_lhs => rw [← List.takeWhile_append_dropWhile isKanjiNumChar (c :: rest), heq]
      rw [truncChome_append_no_cho _ _ hrun_no]
      simp [truncChome, headIsMe]
    rw [htrunc_rhs, convertChome_run_cho _ hrun_ne hrun_all]
  | case3 c rest hk hno ih =>
    have hrun_all : ∀ a ∈ (c :: rest).takeWhile isKanjiNumChar, isKanjiNumChar a = true :=
      fun a ha => List.mem_takeWhile_imp ha
    have hrun_ne : (c :: rest).takeWhile isKanjiNumChar ≠ [] := by
      rw [List.takeWhile_cons, if_pos hk]
      simp
    have hrun_no : ∀ a ∈ (c :: rest).takeWhile isKanjiNumChar, a ≠ '丁' :=
      fun a ha => (kanji_char_facts a (hrun_all a ha)).1
    have hno2 : ∀ tail, (c :: rest).dropWhile isKanjiNumChar ≠ '丁' :: '目' :: tail :=
      fun tail ht => hno tail ht
    rw [convertChome_eq_nocho c rest hk hno2]
    rw [truncChome_append_no_cho _ _ hrun_no, ih]
    have htrunc : truncChome (c :: rest)
        = (c :: rest).takeWhile isKanjiNumChar
          ++ truncChome ((c :: rest).dropWhile isKanjiNumChar) := by
      conv_lhs => rw [← List.takeWhile_append_dropWhile isKanjiNumChar (c :: rest)]
      rw [truncChome_append_no_cho _ _ hrun_no]
    rw [htrunc]
    rw [convertChome_append_run _ _ hrun_ne hrun_all]
    · intro d t ht
      have hh : ((c :: rest).dropWhile isKanjiNumChar).head? = some d := by
        rw [← truncChome_head, ht]
        rfl
      cases hdw : (c :: rest).dropWhile isKanjiNumChar with
      | nil => rw [hdw] at hh; simp at hh
      | cons d2 t2 =>
        rw [hdw] at hh
        have hd2 : d2 = d := by simpa using hh
        rw [← hd2]
        exact dropWhile_head_false isKanjiNumChar (c :: rest) d2 t2 hdw
    · exact truncChome_no_cho _ hno2
  | case4 c rest hk ih =>
    have hk2 : isKanjiNumChar c = false := by simpa using hk
    rw [convertChome_eq_cons c rest hk2]
    by_cases hc : c = '丁' ∧ headIsMe rest
    · have h1 : truncChome (c :: convertChome rest) = ['丁', '目'] := by
        simp only [truncChome]
        rw [if_pos ⟨hc.1, by rw [convertChome_headIsMe]; exact hc.2⟩]
      have h2 : truncChome (c :: rest) = ['丁', '目'] := by
        simp only [truncChome]
        rw [if_pos hc]
      rw [h1, h2]
      rw [convertChome_eq_cons '丁' ['目'] (by decide),
        convertChome_eq_cons '目' [] (by decide)]
      simp [convertChome]
    · have hcompl : ¬(c = '丁' ∧ headIsMe (convertChome rest)) := by
        rw [convertChome_headIsMe]
        exact hc
      have h1 : truncChome (c :: convertChome rest) = c :: truncChome (convertChome rest) := by
        simp only [truncChome]
        rw [if_neg hcompl]
      have h2 : truncChome (c :: rest) = c :: truncChome rest := by
        simp only [truncChome]
        rw [if_neg hc]
      rw [h1, h2, ih, convertChome_eq_cons c (truncChome rest) hk2]

theorem convertChome_no_space : ∀ l : Str, (∀ c ∈ l, isJsSpace c = false) →
    ∀ d ∈ convertChome l, isJsSpace d = false := by
  intro l
  induction l using convertChome.induct with
  | case1 =>
    intro h d hd
    simp [convertChome] at hd
  | case2 c rest hk tail heq ih =>
    intro h d hd
    rw [convertChome_eq_cho c rest tail hk heq] at hd
    rcases List.mem_append.mp hd with hd1 | hd2
    · exact (chomePiece_chars _ (fun a ha => List.mem_takeWhile_imp ha) d hd1).2.2
    · rcases List.mem_cons.mp hd2 with rfl | hd3
      · decide
      · rcases List.mem_cons.mp hd3 with rfl | hd4
        · decide
        · refine ih ?_ d hd4
          intro a ha
          refine h a ?_
          have ham : a ∈ (c :: rest).dropWhile isKanjiNumChar := by
            rw [heq]
            exact List.mem_cons_of_mem _ (List.mem_cons_of_mem _ ha)
          exact (List.dropWhile_sublist _).subset ham
  | case3 c rest hk hno ih =>
    intro h d hd
    rw [convertChome_eq_nocho c rest hk (fun tail ht => hno tail ht)] at hd
    rcases List.mem_append.mp hd with hd1 | hd2
    · exact h d ((List.takeWhile_sublist _).subset hd1)
    · exact ih (fun a ha => h a ((List.dropWhile_sublist _).subset ha)) d hd2
  | case4 c rest hk ih =>
    intro h d hd
    rw [convertChome_eq_cons c rest (by simpa using hk)] at hd
    rcases List.mem_cons.mp hd with rfl | hd2
    · exact h d (List.mem_cons_self _ _)
    · exact ih (fun a ha => h a (List.mem_cons_of_mem _ ha)) d hd2

/-- C10: the two independently implemented town-name normalizers — the
resolver's normalizeChome (fold digits, strip whitespace, rewrite kanji
numerals before 丁目, then truncate after the first 丁目) and the boundary
matcher's normalizeTownName (strip, fold, truncate, then rewrite, then trim)
— compute the same function on every input string. -/
theorem normalizeChome_eq_normalizeTownName : ∀ s : Str, normalizeChome s = normalizeTownName s := by
  intro s
  unfold normalizeChome normalizeTownName
  rw [← strip_fold_comm]
  have hy : ∀ c ∈ stripJsSpace (toHalfWidthDigits s), isJsSpace c = false := by
    intro c hc
    unfold stripJsSpace at hc
    simpa using List.of_mem_filter hc
  rw [← trunc_convert_comm]
  have hns : ∀ c ∈ truncChome (convertChome (stripJsSpace (toHalfWidthDigits s))),
      isJsSpace c = false := by
    intro c hc
    rcases truncChome_subset_chars _ c hc with h1 | h2 | h3
    · exact convertChome_no_space _ hy c h1
    · rw [h2]
      decide
    · rw [h3]
      decide
  rw [jsTrim_no_space _ hns]

end JourneyMap
